import Mathlib

/-!
Verification development for the os2omf legacy-executable decoder.

The definitions below are a shallow embedding of the Rust sources under
`src/`: each Rust decoder function becomes an executable Lean function over
an explicit byte source.  Machine integers are modelled as `Nat` with an
explicit `% 256` at each byte read; Rust `io::Error` values, together with
Rust panics (unwrap on a missing value, out-of-bounds indexing, debug-mode
arithmetic overflow), become constructors of an explicit error type, so that
every fallible decoder is a total function into `Except`.
-/

namespace Os2omf

/-- Error outcomes of the decoders.  Constructors mirror the distinct
`io::Error` construction sites of the source, plus `panicked` for Rust
panics (which abort rather than return) and `outOfFuel`, an artefact of
embedding the source's `while` loops with an explicit fuel argument (chosen
large enough that it is never exhausted on the loops' reachable states). -/
inductive IoErr where
  | truncated
  | castFailed
  | invalidMagic (m : Nat)
  | badByteOrder
  | unknownTargetType (t : Nat)
  | invalidModuleIndex (i : Nat)
  | bundleExceeds (size rem : Nat)
  | notVerifyRecord
  | verifyTooShort
  | noEndMarker
  | outOfFuel
  | panicked (msg : String)
  deriving DecidableEq

/-- A seekable byte source: the Rust `Read + Seek` reader.  `data i` is the
byte stored at absolute file offset `i` (reduced `% 256` on every read),
`size` the file length, `pos` the stream position. -/
structure ByteReader where
  data : Nat → Nat
  size : Nat
  pos : Nat

/-- `Read::read_exact` on an `n`-byte buffer: yields the `n` bytes at the
current position and advances, or fails with a short read. -/
def ByteReader.readExact (r : ByteReader) (n : Nat) : Except IoErr (List Nat × ByteReader) :=
  if r.pos + n ≤ r.size then
    .ok ((List.range n).map (fun i => r.data (r.pos + i) % 256), { r with pos := r.pos + n })
  else
    .error .truncated

/-- `Seek::seek(SeekFrom::Start off)` (seeking past the end succeeds;
subsequent reads fail). -/
def ByteReader.seek (r : ByteReader) (off : Nat) : ByteReader :=
  { r with pos := off }

/-- Read one byte (a `[0u8; 1]` buffer). -/
def ByteReader.readU8 (r : ByteReader) : Except IoErr (Nat × ByteReader) :=
  match r.readExact 1 with
  | .ok (bs, r') => .ok (bs.getD 0 0, r')
  | .error e => .error e

/-- Read a little-endian `u16`. -/
def ByteReader.readU16 (r : ByteReader) : Except IoErr (Nat × ByteReader) :=
  match r.readExact 2 with
  | .ok (bs, r') => .ok (bs.getD 0 0 + 256 * bs.getD 1 0, r')
  | .error e => .error e

/-- Read a little-endian `u32`. -/
def ByteReader.readU32 (r : ByteReader) : Except IoErr (Nat × ByteReader) :=
  match r.readExact 4 with
  | .ok (bs, r') =>
    .ok (bs.getD 0 0 + 256 * bs.getD 1 0 + 65536 * bs.getD 2 0 + 16777216 * bs.getD 3 0, r')
  | .error e => .error e

/-- Byte source backed by a concrete list of bytes. -/
def listSource (l : List Nat) : ByteReader :=
  { data := fun i => l.getD i 0, size := l.length, pos := 0 }

/-- `u8` field of a decoded byte buffer at a given offset. -/
def bU8 (buf : List Nat) (off : Nat) : Nat := buf.getD off 0

/-- Little-endian `u16` field of a byte buffer at a given offset. -/
def bU16 (buf : List Nat) (off : Nat) : Nat :=
  bU8 buf off + 256 * bU8 buf (off + 1)

/-- Little-endian `u32` field of a byte buffer at a given offset. -/
def bU32 (buf : List Nat) (off : Nat) : Nat :=
  bU8 buf off + 256 * bU8 buf (off + 1) + 65536 * bU8 buf (off + 2) +
    16777216 * bU8 buf (off + 3)

/-! ## `src/exe386/header.rs` -/

def LX_MAGIC : Nat := 0x584C
def LX_CIGAM : Nat := 0x4C58
def LE_MAGIC : Nat := 0x455C
def LE_CIGAM : Nat := 0x4C45

/-- The 184-byte `LinearExecutableHeader` struct (`repr(C)`, all fields
little-endian, cast from the raw buffer by `bytemuck`). -/
structure LinearExecutableHeader where
  e32_magic : Nat
  e32_border : Nat
  e32_worder : Nat
  e32_level : Nat
  e32_cpu : Nat
  e32_os : Nat
  e32_ver : Nat
  e32_mflags : Nat
  e32_mpages : Nat
  e32_cs : Nat
  e32_eip : Nat
  e32_ss : Nat
  e32_esp : Nat
  e32_pagesize : Nat
  e32_pageshift_or_lastpage : Nat
  e32_fixupsize : Nat
  e32_fixupsum : Nat
  e32_ldrsize : Nat
  e32_ldrsum : Nat
  e32_objtab : Nat
  e32_objcnt : Nat
  e32_objmap : Nat
  e32_itermap : Nat
  e32_rsrctab : Nat
  e32_rsrccnt : Nat
  e32_restab : Nat
  e32_enttab : Nat
  e32_dirtab : Nat
  e32_dircnt : Nat
  e32_fpagetab : Nat
  e32_frectab : Nat
  e32_impmod : Nat
  e32_impmodcnt : Nat
  e32_impproc : Nat
  e32_pagesum : Nat
  e32_datapage : Nat
  e32_preload : Nat
  e32_nrestab : Nat
  e32_cbnrestab : Nat
  e32_nressum : Nat
  e32_autodata : Nat
  e32_debuginfo : Nat
  e32_debuglen : Nat
  e32_instpreload : Nat
  e32_instdemand : Nat
  e32_heapsize : Nat
  e32_stacksize : Nat
  e32_res3 : List Nat
  deriving DecidableEq

/-- The `bytemuck::try_from_bytes` cast of the 184-byte buffer into the
`repr(C)` struct: every field taken little-endian at its layout offset. -/
def LinearExecutableHeader.parse (buf : List Nat) : LinearExecutableHeader where
  e32_magic := bU16 buf 0
  e32_border := bU8 buf 2
  e32_worder := bU8 buf 3
  e32_level := bU32 buf 4
  e32_cpu := bU16 buf 8
  e32_os := bU16 buf 10
  e32_ver := bU32 buf 12
  e32_mflags := bU32 buf 16
  e32_mpages := bU32 buf 20
  e32_cs := bU32 buf 24
  e32_eip := bU32 buf 28
  e32_ss := bU32 buf 32
  e32_esp := bU32 buf 36
  e32_pagesize := bU32 buf 40
  e32_pageshift_or_lastpage := bU32 buf 44
  e32_fixupsize := bU32 buf 48
  e32_fixupsum := bU32 buf 52
  e32_ldrsize := bU32 buf 56
  e32_ldrsum := bU32 buf 60
  e32_objtab := bU32 buf 64
  e32_objcnt := bU32 buf 68
  e32_objmap := bU32 buf 72
  e32_itermap := bU32 buf 76
  e32_rsrctab := bU32 buf 80
  e32_rsrccnt := bU32 buf 84
  e32_restab := bU32 buf 88
  e32_enttab := bU32 buf 92
  e32_dirtab := bU32 buf 96
  e32_dircnt := bU32 buf 100
  e32_fpagetab := bU32 buf 104
  e32_frectab := bU32 buf 108
  e32_impmod := bU32 buf 112
  e32_impmodcnt := bU32 buf 116
  e32_impproc := bU32 buf 120
  e32_pagesum := bU32 buf 124
  e32_datapage := bU32 buf 128
  e32_preload := bU32 buf 132
  e32_nrestab := bU32 buf 136
  e32_cbnrestab := bU32 buf 140
  e32_nressum := bU32 buf 144
  e32_autodata := bU32 buf 148
  e32_debuginfo := bU32 buf 152
  e32_debuglen := bU32 buf 156
  e32_instpreload := bU32 buf 160
  e32_instdemand := bU32 buf 164
  e32_heapsize := bU32 buf 168
  e32_stacksize := bU32 buf 172
  e32_res3 := [bU8 buf 176, bU8 buf 177, bU8 buf 178, bU8 buf 179,
               bU8 buf 180, bU8 buf 181, bU8 buf 182, bU8 buf 183]

/-- `LinearExecutableHeader::invalid_magic`: a `match` on `e32_magic` that
returns `true` on the four `LX`/`LE` constants and `false` otherwise. -/
def LinearExecutableHeader.invalid_magic (h : LinearExecutableHeader) : Bool :=
  h.e32_magic == LX_MAGIC || h.e32_magic == LX_CIGAM ||
    h.e32_magic == LE_MAGIC || h.e32_magic == LE_CIGAM

/-- `LinearExecutableHeader::le_byte_ordering`: both order bytes zero. -/
def LinearExecutableHeader.le_byte_ordering (h : LinearExecutableHeader) : Bool :=
  h.e32_border == 0 && h.e32_worder == 0

/-- `LinearExecutableHeader::read`: read 184 bytes at the current position,
cast them into the struct, reject when `invalid_magic()` holds, reject
non-zero byte/word order, otherwise return the header. -/
def LinearExecutableHeader.read (r : ByteReader) :
    Except IoErr (LinearExecutableHeader × ByteReader) :=
  match r.readExact 184 with
  | .error e => .error e
  | .ok (buf, r') =>
    let header := LinearExecutableHeader.parse buf
    if header.invalid_magic then
      .error (.invalidMagic header.e32_magic)
    else if !header.le_byte_ordering then
      .error .badByteOrder
    else
      .ok (header, r')

/-! ## `src/exe386/frectab.rs` -/

structure FixupTargetInternal where
  object_number : Nat
  target_offset : Option Nat
  deriving DecidableEq

structure FixupTargetImportedOrdinal where
  module_ordinal : Nat
  import_ordinal : Nat
  deriving DecidableEq

structure FixupTargetImportedName where
  module_ordinal : Nat
  procedure_name_offset : Nat
  deriving DecidableEq

structure FixupTargetEntryTable where
  entry_number : Nat
  deriving DecidableEq

inductive FixupTarget where
  | internal (t : FixupTargetInternal)
  | importedOrdinal (t : FixupTargetImportedOrdinal)
  | importedName (t : FixupTargetImportedName)
  | fixupViaEntryTable (t : FixupTargetEntryTable)
  deriving DecidableEq

structure FixupRecord where
  source : Nat
  target_flags : Nat
  source_offset_or_count : Nat
  target_data : FixupTarget
  additive_value : Option Nat
  source_offset_list : Option (List Nat)
  deriving DecidableEq

structure FixupFlags where
  has_source_list : Bool
  has_additive : Bool
  is_32bit_target : Bool
  is_32bit_additive : Bool
  is_16bit_object_module : Bool
  is_8bit_ordinal : Bool
  target_type : Nat
  source_type : Nat
  deriving DecidableEq

/-- `FixupFlags::from_bytes`: bit tests on the two leading flag bytes. -/
def FixupFlags.from_bytes (source target_flags : Nat) : FixupFlags where
  has_source_list := source &&& 0x20 != 0
  has_additive := target_flags &&& 0x04 != 0
  is_32bit_target := target_flags &&& 0x10 != 0
  is_32bit_additive := target_flags &&& 0x20 != 0
  is_16bit_object_module := target_flags &&& 0x40 != 0
  is_8bit_ordinal := target_flags &&& 0x80 != 0
  target_type := target_flags &&& 0x03
  source_type := source &&& 0x0F

/-- `FixupRecordsTable::read_internal_target`. -/
def read_internal_target (r : ByteReader) (flags : FixupFlags) :
    Except IoErr (FixupTarget × ByteReader) :=
  match (if flags.is_16bit_object_module then r.readU16 else r.readU8) with
  | .error e => .error e
  | .ok (object_number, r1) =>
    if flags.source_type ≠ 0x02 then
      match (if flags.is_32bit_target then r1.readU32 else r1.readU16) with
      | .error e => .error e
      | .ok (off, r2) =>
        .ok (.internal ⟨object_number, some off⟩, r2)
    else
      .ok (.internal ⟨object_number, none⟩, r1)

/-- `FixupRecordsTable::read_imported_ordinal_target`. -/
def read_imported_ordinal_target (r : ByteReader) (flags : FixupFlags) :
    Except IoErr (FixupTarget × ByteReader) :=
  match (if flags.is_16bit_object_module then r.readU16 else r.readU8) with
  | .error e => .error e
  | .ok (module_ordinal, r1) =>
    match (if flags.is_8bit_ordinal then r1.readU8
           else if flags.is_32bit_target then r1.readU32
           else r1.readU16) with
    | .error e => .error e
    | .ok (import_ordinal, r2) =>
      .ok (.importedOrdinal ⟨module_ordinal, import_ordinal⟩, r2)

/-- `FixupRecordsTable::read_imported_name_target`. -/
def read_imported_name_target (r : ByteReader) (flags : FixupFlags) :
    Except IoErr (FixupTarget × ByteReader) :=
  match (if flags.is_16bit_object_module then r.readU16 else r.readU8) with
  | .error e => .error e
  | .ok (module_ordinal, r1) =>
    match (if flags.is_32bit_target then r1.readU32 else r1.readU16) with
    | .error e => .error e
    | .ok (procedure_name_offset, r2) =>
      .ok (.importedName ⟨module_ordinal, procedure_name_offset⟩, r2)

/-- `FixupRecordsTable::read_entry_table_target`. -/
def read_entry_table_target (r : ByteReader) (flags : FixupFlags) :
    Except IoErr (FixupTarget × ByteReader) :=
  match (if flags.is_16bit_object_module then r.readU16 else r.readU8) with
  | .error e => .error e
  | .ok (entry_number, r1) =>
    .ok (.fixupViaEntryTable ⟨entry_number⟩, r1)

/-- `FixupRecordsTable::read_target_data`: dispatch on `tgt & 0x03`. -/
def read_target_data (r : ByteReader) (flags : FixupFlags) :
    Except IoErr (FixupTarget × ByteReader) :=
  match flags.target_type with
  | 0x00 => read_internal_target r flags
  | 0x01 => read_imported_ordinal_target r flags
  | 0x02 => read_imported_name_target r flags
  | 0x03 => read_entry_table_target r flags
  | t => .error (.unknownTargetType t)

/-- The source-offset-list loop at the tail of
`FixupRecordsTable::read_single_fixup_record`: `count` little-endian `u16`
reads. -/
def readU16List (r : ByteReader) : (count : Nat) → Except IoErr (List Nat × ByteReader)
  | 0 => .ok ([], r)
  | n + 1 =>
    match r.readU16 with
    | .error e => .error e
    | .ok (v, r1) =>
      match readU16List r1 n with
      | .error e => .error e
      | .ok (vs, r2) => .ok (v :: vs, r2)

/-- `FixupRecordsTable::read_single_fixup_record`: two flag bytes, then a
one-byte source count (source-list form) or a `u16` site offset, the target
fields, the optional additive constant and the optional source-offset
list.  (The source wraps the record in `Option` but never returns `None`.) -/
def read_single_fixup_record (r : ByteReader) :
    Except IoErr (FixupRecord × ByteReader) :=
  match r.readU8 with
  | .error e => .error e
  | .ok (source, r1) =>
    match r1.readU8 with
    | .error e => .error e
    | .ok (target_flags, r2) =>
      let flags := FixupFlags.from_bytes source target_flags
      match (if flags.has_source_list then r2.readU8 else r2.readU16) with
      | .error e => .error e
      | .ok (source_offset_or_count, r3) =>
        match read_target_data r3 flags with
        | .error e => .error e
        | .ok (target_data, r4) =>
          match (if flags.has_additive then
                   (if flags.is_32bit_additive then r4.readU32 else r4.readU16).map
                     (fun (v, r5) => (some v, r5))
                 else .ok (none, r4)) with
          | .error e => .error e
          | .ok (additive_value, r5) =>
            match (if flags.has_source_list then
                     (readU16List r5 source_offset_or_count).map
                       (fun (l, r6) => (some l, r6))
                   else .ok (none, r5)) with
            | .error e => .error e
            | .ok (source_offset_list, r6) =>
              .ok ({ source, target_flags, source_offset_or_count,
                     target_data, additive_value, source_offset_list }, r6)

/-! ## `src/exe386/fpagetab.rs` -/

structure FixupPageTable where
  page_offsets : List Nat
  end_of_fixup_records : Nat
  deriving DecidableEq

/-- The `u32` array loop of `FixupPageTable::read`. -/
def readU32List (r : ByteReader) : (count : Nat) → Except IoErr (List Nat × ByteReader)
  | 0 => .ok ([], r)
  | n + 1 =>
    match r.readU32 with
    | .error e => .error e
    | .ok (v, r1) =>
      match readU32List r1 n with
      | .error e => .error e
      | .ok (vs, r2) => .ok (v :: vs, r2)

/-- `FixupPageTable::read`: seek to `fpagetab`, return an empty table when
`e32_fpagetab` is zero, otherwise read `e32_mpages + 1` little-endian `u32`
entries and pop the last as the end-of-stream marker. -/
def FixupPageTable.read (r : ByteReader) (fpagetab : Nat)
    (header : LinearExecutableHeader) : Except IoErr (FixupPageTable × ByteReader) :=
  let r0 := r.seek fpagetab
  if header.e32_fpagetab = 0 then
    .ok ({ page_offsets := [], end_of_fixup_records := 0 }, r0)
  else
    match readU32List r0 (header.e32_mpages + 1) with
    | .error e => .error e
    | .ok (page_offsets, r1) =>
      match page_offsets.getLast? with
      | none => .error .noEndMarker
      | some last => .ok ({ page_offsets := page_offsets.dropLast,
                            end_of_fixup_records := last }, r1)

structure FixupRecordsTable where
  records : List FixupRecord
  deriving DecidableEq

/-- The inner `while reader.stream_position()? < bound` loop of
`FixupRecordsTable::read`, reading fixup records for one logical page.
`fuel` is an embedding artefact: each iteration consumes at least one byte
of the stream, so `bound + 1` iterations always suffice (the callers pass
at least that much and `outOfFuel` is unreachable there). -/
def readPageRecords (fuel : Nat) (bound : Nat) (r : ByteReader) :
    Except IoErr (List FixupRecord × ByteReader) :=
  if r.pos < bound then
    match fuel with
    | 0 => .error .outOfFuel
    | fuel + 1 =>
      match read_single_fixup_record r with
      | .error e => .error e
      | .ok (record, r1) =>
        match readPageRecords fuel bound r1 with
        | .error e => .error e
        | .ok (records, r2) => .ok (record :: records, r2)
  else
    .ok ([], r)

/-- The outer per-page loop of `FixupRecordsTable::read`: for each entry of
`page_offsets` (with its successor, or the end marker, as the slice end),
seek to the slice start and read records while the position is below the
slice end. -/
def readAllPages (fixup_record_table_offset : Nat) (end_of_fixup_records : Nat)
    (r : ByteReader) : (offsets : List Nat) → Except IoErr (List FixupRecord × ByteReader)
  | [] => .ok ([], r)
  | page_offset :: rest =>
    let record_offset := fixup_record_table_offset + page_offset
    let r0 := r.seek record_offset
    let next_offset := rest.headD end_of_fixup_records
    let bound := fixup_record_table_offset + next_offset
    match readPageRecords (bound + 1) bound r0 with
    | .error e => .error e
    | .ok (records, r1) =>
      match readAllPages fixup_record_table_offset end_of_fixup_records r1 rest with
      | .error e => .error e
      | .ok (records2, r2) => .ok (records ++ records2, r2)

/-- `FixupRecordsTable::read`. -/
def FixupRecordsTable.read (r : ByteReader) (fixup_page_table : FixupPageTable)
    (fixup_record_table_offset : Nat) : Except IoErr (FixupRecordsTable × ByteReader) :=
  match readAllPages fixup_record_table_offset fixup_page_table.end_of_fixup_records
      r fixup_page_table.page_offsets with
  | .error e => .error e
  | .ok (records, r1) => .ok ({ records }, r1)

/-! ## `src/types/mod.rs` -/

/-- Length-prefixed byte string (`PascalString`): the length byte and the
raw bytes, kept verbatim. -/
structure PascalString where
  length : Nat
  string : List Nat
  deriving DecidableEq

def PascalString.empty : PascalString := { length := 0, string := [] }

def PascalString.new (len : Nat) (bytes : List Nat) : PascalString :=
  { length := len, string := bytes }

/-- Continuation byte of a multi-byte UTF-8 sequence. -/
def isCont (b : Nat) : Bool := 0x80 ≤ b && b ≤ 0xBF

/-- UTF-8 validity of a byte sequence, as checked by the standard library
`str::from_utf8` that `PascalString::to_string` calls (RFC 3629: no
overlong forms, no surrogates, no code points above U+10FFFF). -/
def validUtf8 : List Nat → Bool
  | [] => true
  | b0 :: rest =>
    if b0 < 0x80 then validUtf8 rest
    else if b0 < 0xC2 then false
    else if b0 ≤ 0xDF then
      match rest with
      | b1 :: rest2 => isCont b1 && validUtf8 rest2
      | [] => false
    else if b0 ≤ 0xEF then
      match rest with
      | b1 :: b2 :: rest3 =>
        (if b0 = 0xE0 then decide (0xA0 ≤ b1 ∧ b1 ≤ 0xBF)
         else if b0 = 0xED then decide (0x80 ≤ b1 ∧ b1 ≤ 0x9F)
         else isCont b1) && isCont b2 && validUtf8 rest3
      | _ => false
    else if b0 ≤ 0xF4 then
      match rest with
      | b1 :: b2 :: b3 :: rest4 =>
        (if b0 = 0xF0 then decide (0x90 ≤ b1 ∧ b1 ≤ 0xBF)
         else if b0 = 0xF4 then decide (0x80 ≤ b1 ∧ b1 ≤ 0x8F)
         else isCont b1) && isCont b2 && isCont b3 && validUtf8 rest4
      | _ => false
    else false

/-- `PascalString::to_string`: `str::from_utf8(&self.string).expect(..)` —
the bytes verbatim when they are valid UTF-8, a panic otherwise. -/
def PascalString.to_string (p : PascalString) : Except IoErr (List Nat) :=
  if validUtf8 p.string then .ok p.string
  else .error (.panicked "invalid utf-8 sequence")

/-! ## `src/exe386/imptab.rs` -/

structure DllImportName where
  module_index : Nat
  module_name : PascalString
  import_name_offset : Nat
  import_name : PascalString
  deriving DecidableEq

structure DllImportOrdinal where
  module_index : Nat
  module_name : PascalString
  import_ordinal : Nat
  deriving DecidableEq

inductive DllImport where
  | importName (i : DllImportName)
  | importOrdinal (i : DllImportOrdinal)
  deriving DecidableEq

structure ImportData where
  imp_mod_offset : Nat
  imp_proc_offset : Nat
  fixup_records : List FixupRecord
  deriving DecidableEq

/-- `ImportRelocationsTable::read_pascal_string`: a length byte, then that
many bytes; length zero yields the empty string without further reads. -/
def read_pascal_string (r : ByteReader) : Except IoErr (PascalString × ByteReader) :=
  match r.readU8 with
  | .error e => .error e
  | .ok (len, r1) =>
    if len = 0 then .ok (PascalString.empty, r1)
    else
      match r1.readExact len with
      | .error e => .error e
      | .ok (name_bytes, r2) => .ok (PascalString.new len name_bytes, r2)

/-- The `loop` body of `ImportRelocationsTable::read_modules`: read
length-prefixed strings until a zero length byte.  `fuel` is an embedding
artefact; each iteration consumes at least one byte, so `r.size + 1`
iterations always suffice. -/
def readModulesLoop (fuel : Nat) (r : ByteReader) :
    Except IoErr (List PascalString × ByteReader) :=
  match fuel with
  | 0 => .error .outOfFuel
  | fuel + 1 =>
    match r.readU8 with
    | .error e => .error e
    | .ok (len, r1) =>
      if len = 0 then .ok ([], r1)
      else
        match r1.readExact len with
        | .error e => .error e
        | .ok (name_bytes, r2) =>
          match readModulesLoop fuel r2 with
          | .error e => .error e
          | .ok (modules, r3) => .ok (PascalString.new len name_bytes :: modules, r3)

/-- `ImportRelocationsTable::read_modules`: empty for a zero offset, else
seek to the import module name pool, scan strings until a zero length byte,
restore the original position. -/
def read_modules (r : ByteReader) (imp_mod_offset : Nat) :
    Except IoErr (List PascalString × ByteReader) :=
  if imp_mod_offset = 0 then .ok ([], r)
  else
    let original_pos := r.pos
    let r0 := r.seek imp_mod_offset
    match readModulesLoop (r0.size + 1) r0 with
    | .error e => .error e
    | .ok (modules, r1) => .ok (modules, r1.seek original_pos)

/-- `ImportRelocationsTable::process_imported_name`.  The source computes
`module_ordinal - 1` on a `u16` (a debug-build panic for ordinal zero) and
then looks the module up with `.ok_or_else(InvalidModuleOrdinal).unwrap()`
— `unwrap` panics when the index is out of range instead of returning the
constructed error. -/
def process_imported_name (r : ByteReader) (name_target : FixupTargetImportedName)
    (modules : List PascalString) (imp_proc_offset : Nat) :
    Except IoErr (DllImport × ByteReader) :=
  if name_target.module_ordinal = 0 then
    .error (.panicked "attempt to subtract with overflow")
  else
    let module_index := name_target.module_ordinal - 1
    match modules.get? module_index with
    | none => .error (.panicked "called unwrap on an Err value")
    | some module_name =>
      let procedure_ptr := imp_proc_offset + name_target.procedure_name_offset
      let original_pos := r.pos
      let r0 := r.seek procedure_ptr
      match read_pascal_string r0 with
      | .error e => .error e
      | .ok (import_name, r1) =>
        .ok (.importName { module_index, module_name,
                           import_name_offset := name_target.procedure_name_offset,
                           import_name }, r1.seek original_pos)

/-- `ImportRelocationsTable::process_imported_ordinal`: the same `u16`
subtraction (debug-build panic for ordinal zero); an out-of-range index
returns an `InvalidData` error. -/
def process_imported_ordinal (ordinal_target : FixupTargetImportedOrdinal)
    (modules : List PascalString) : Except IoErr DllImport :=
  if ordinal_target.module_ordinal = 0 then
    .error (.panicked "attempt to subtract with overflow")
  else
    let module_index := ordinal_target.module_ordinal - 1
    match modules.get? module_index with
    | none => .error (.invalidModuleIndex module_index)
    | some module_name =>
      .ok (.importOrdinal { module_index, module_name,
                            import_ordinal := ordinal_target.import_ordinal })

/-- The `for record in import_data.fixup_records` loop of
`ImportRelocationsTable::read`: non-import targets are skipped. -/
def processImportRecords (r : ByteReader) (modules : List PascalString)
    (imp_proc_offset : Nat) :
    (records : List FixupRecord) → Except IoErr (List DllImport × ByteReader)
  | [] => .ok ([], r)
  | record :: rest =>
    match record.target_data with
    | .importedName name_target =>
      match process_imported_name r name_target modules imp_proc_offset with
      | .error e => .error e
      | .ok (imp, r1) =>
        match processImportRecords r1 modules imp_proc_offset rest with
        | .error e => .error e
        | .ok (imports, r2) => .ok (imp :: imports, r2)
    | .importedOrdinal ordinal_target =>
      match process_imported_ordinal ordinal_target modules with
      | .error e => .error e
      | .ok imp =>
        match processImportRecords r modules imp_proc_offset rest with
        | .error e => .error e
        | .ok (imports, r2) => .ok (imp :: imports, r2)
    | _ => processImportRecords r modules imp_proc_offset rest

structure ImportRelocationsTable where
  imports : List DllImport
  deriving DecidableEq

/-- `ImportRelocationsTable::read`. -/
def ImportRelocationsTable.read (r : ByteReader) (import_data : ImportData) :
    Except IoErr (ImportRelocationsTable × ByteReader) :=
  match read_modules r import_data.imp_mod_offset with
  | .error e => .error e
  | .ok (modules, r1) =>
    match processImportRecords r1 modules import_data.imp_proc_offset
        import_data.fixup_records with
    | .error e => .error e
    | .ok (imports, r2) => .ok ({ imports }, r2)

/-! ## `src/exe386/dirtab.rs` -/

inductive DirectiveType where
  | verifyRecord
  | languageInfo
  | coprocessorRequired
  | threadStateInit
  | unknown (n : Nat)
  deriving DecidableEq

/-- `DirectiveType::from`. -/
def DirectiveType.fromValue (value : Nat) : DirectiveType :=
  if value = 0x8001 then .verifyRecord
  else if value = 0x0002 then .languageInfo
  else if value = 0x0003 then .coprocessorRequired
  else if value = 0x0004 then .threadStateInit
  else .unknown value

structure ModuleDirective where
  directive_type : DirectiveType
  data : List Nat
  deriving DecidableEq

structure ModuleDirectivesTable where
  directives : List ModuleDirective
  deriving DecidableEq

/-- One iteration of the `for _ in 0..e32_impmodcnt` loop of
`ModuleDirectivesTable::read`: an 8-byte directive record, then its data
bytes fetched from `e32_magic + dataOffset` (directive number with bit
0x8000 set) or from the absolute `dataOffset`, with the stream position
restored afterwards. -/
def readDirectives (header : LinearExecutableHeader) (r : ByteReader) :
    (count : Nat) → Except IoErr (List ModuleDirective × ByteReader)
  | 0 => .ok ([], r)
  | n + 1 =>
    match r.readExact 8 with
    | .error e => .error e
    | .ok (entry_buf, r1) =>
      let directive_number := bU16 entry_buf 0
      let data_length := bU16 entry_buf 2
      let entry_data_offset := bU32 entry_buf 4
      let directive_type := DirectiveType.fromValue directive_number
      let data_offset := if directive_number &&& 0x8000 ≠ 0 then
          header.e32_magic + entry_data_offset
        else
          entry_data_offset
      let current_pos := r1.pos
      match (r1.seek data_offset).readExact data_length with
      | .error e => .error e
      | .ok (data, r2) =>
        match readDirectives header (r2.seek current_pos) n with
        | .error e => .error e
        | .ok (directives, r3) =>
          .ok ({ directive_type, data } :: directives, r3)

/-- `ModuleDirectivesTable::read`: empty when `e32_impmod` or
`e32_impmodcnt` is zero; otherwise seek to `e32_impmod + e_lfanew` and read
`e32_impmodcnt` directive records. -/
def ModuleDirectivesTable.read (r : ByteReader) (header : LinearExecutableHeader)
    (e_lfanew : Nat) : Except IoErr (ModuleDirectivesTable × ByteReader) :=
  if header.e32_impmod = 0 ∨ header.e32_impmodcnt = 0 then
    .ok ({ directives := [] }, r)
  else
    let r0 := r.seek (header.e32_impmod + e_lfanew)
    match readDirectives header r0 header.e32_impmodcnt with
    | .error e => .error e
    | .ok (directives, r1) => .ok ({ directives }, r1)

structure ObjectVerification where
  object_number : Nat
  base_address : Nat
  virtual_size : Nat
  deriving DecidableEq

structure ModuleDependency where
  module_ordinal : Nat
  version : Nat
  module_object_count : Nat
  object_verifications : List ObjectVerification
  deriving DecidableEq

structure VerifyRecord where
  module_dependencies : List ModuleDependency
  deriving DecidableEq

/-- Rust slice indexing `data[i]`: the byte, or an out-of-bounds panic. -/
def idxByte (data : List Nat) (i : Nat) : Except IoErr Nat :=
  if h : i < data.length then .ok (data.get ⟨i, h⟩)
  else .error (.panicked "index out of bounds")

/-- The inner `for _ in 0..module_object_count` loop of
`ModuleDirectivesTable::read_verify_record`: it breaks when
`offset + 8 > data.len()` but then indexes `data[offset]` through
`data[offset + 9]` (a 10-byte record). -/
def readObjectVerifications (data : List Nat) :
    (count : Nat) → (offset : Nat) → Except IoErr (List ObjectVerification × Nat)
  | 0, offset => .ok ([], offset)
  | n + 1, offset =>
    if offset + 8 > data.length then .ok ([], offset)
    else
      match idxByte data offset, idxByte data (offset + 1) with
      | .ok o0, .ok o1 =>
        match idxByte data (offset + 2), idxByte data (offset + 3),
              idxByte data (offset + 4), idxByte data (offset + 5) with
        | .ok a0, .ok a1, .ok a2, .ok a3 =>
          match idxByte data (offset + 6), idxByte data (offset + 7),
                idxByte data (offset + 8), idxByte data (offset + 9) with
          | .ok v0, .ok v1, .ok v2, .ok v3 =>
            let ov : ObjectVerification :=
              { object_number := o0 + 256 * o1,
                base_address := a0 + 256 * a1 + 65536 * a2 + 16777216 * a3,
                virtual_size := v0 + 256 * v1 + 65536 * v2 + 16777216 * v3 }
            match readObjectVerifications data n (offset + 10) with
            | .error e => .error e
            | .ok (ovs, offset') => .ok (ov :: ovs, offset')
          | _, _, _, _ => .error (.panicked "index out of bounds")
        | _, _, _, _ => .error (.panicked "index out of bounds")
      | _, _ => .error (.panicked "index out of bounds")

/-- The outer `for _ in 0..entry_count` loop of
`ModuleDirectivesTable::read_verify_record`: a 6-byte dependency header
(guarded by the same `offset + 8 > data.len()` break), then the per-object
records. -/
def readModuleDependencies (data : List Nat) :
    (count : Nat) → (offset : Nat) → Except IoErr (List ModuleDependency × Nat)
  | 0, offset => .ok ([], offset)
  | n + 1, offset =>
    if offset + 8 > data.length then .ok ([], offset)
    else
      match idxByte data offset, idxByte data (offset + 1),
            idxByte data (offset + 2), idxByte data (offset + 3),
            idxByte data (offset + 4), idxByte data (offset + 5) with
      | .ok m0, .ok m1, .ok w0, .ok w1, .ok c0, .ok c1 =>
        let module_ordinal := m0 + 256 * m1
        let version := w0 + 256 * w1
        let module_object_count := c0 + 256 * c1
        match readObjectVerifications data module_object_count (offset + 6) with
        | .error e => .error e
        | .ok (ovs, offset1) =>
          match readModuleDependencies data n offset1 with
          | .error e => .error e
          | .ok (deps, offset2) =>
            .ok ({ module_ordinal, version, module_object_count,
                   object_verifications := ovs } :: deps, offset2)
      | _, _, _, _, _, _ => .error (.panicked "index out of bounds")

/-- `ModuleDirectivesTable::read_verify_record`: directive type check, a
minimum length of 2 for the `u16` dependency count, then the dependency
loop starting at offset 2. -/
def read_verify_record (directive : ModuleDirective) : Except IoErr VerifyRecord :=
  if directive.directive_type ≠ .verifyRecord then .error .notVerifyRecord
  else if directive.data.length < 2 then .error .verifyTooShort
  else
    let entry_count := bU16 directive.data 0
    match readModuleDependencies directive.data entry_count 2 with
    | .error e => .error e
    | .ok (deps, _) => .ok { module_dependencies := deps }

/-! ## `src/exe386/objtab.rs` -/

structure Object where
  virtual_size : Nat
  virtual_addr : Nat
  flags : Nat
  map_index : Nat
  map_size : Nat
  reserved : Nat
  deriving DecidableEq

structure ObjectsTable where
  objects : List Object
  deriving DecidableEq

/-- The `for _ in 0..count` loop of `ObjectsTable::read`: one 24-byte
record per object, cast field-by-field little-endian. -/
def readObjects (r : ByteReader) : (count : Nat) → Except IoErr (List Object × ByteReader)
  | 0 => .ok ([], r)
  | n + 1 =>
    match r.readExact 24 with
    | .error e => .error e
    | .ok (caught_obj, r1) =>
      let obj : Object :=
        { virtual_size := bU32 caught_obj 0, virtual_addr := bU32 caught_obj 4,
          flags := bU32 caught_obj 8, map_index := bU32 caught_obj 12,
          map_size := bU32 caught_obj 16, reserved := bU32 caught_obj 20 }
      match readObjects r1 n with
      | .error e => .error e
      | .ok (objs, r2) => .ok (obj :: objs, r2)

/-- `ObjectsTable::read`: seek to `objtab` and read `count` 24-byte
records.  No upper bound on `count` is checked anywhere. -/
def ObjectsTable.read (r : ByteReader) (objtab : Nat) (count : Nat) :
    Except IoErr (ObjectsTable × ByteReader) :=
  match readObjects (r.seek objtab) count with
  | .error e => .error e
  | .ok (objects, r1) => .ok ({ objects }, r1)

/-! ## `src/exe286/enttab.rs` -/

structure FixedEntry where
  segment : Nat
  flags : Nat
  offset : Nat
  deriving DecidableEq

structure MoveableEntry where
  flags : Nat
  magic : List Nat
  segment : Nat
  offset : Nat
  deriving DecidableEq

inductive Entry where
  | unused
  | fixed (e : FixedEntry)
  | moveable (e : MoveableEntry)
  deriving DecidableEq

/-- `FixedEntry::read`: 3 bytes (flags, u16 offset); the segment comes from
the bundle header. -/
def FixedEntry.read (r : ByteReader) (segment : Nat) :
    Except IoErr (FixedEntry × ByteReader) :=
  match r.readExact 3 with
  | .error e => .error e
  | .ok (buf, r1) =>
    .ok ({ segment, flags := bU8 buf 0, offset := bU16 buf 1 }, r1)

/-- `MoveableEntry::read`: 6 bytes (flags, 2-byte INT-3F magic, segment,
u16 offset). -/
def MoveableEntry.read (r : ByteReader) : Except IoErr (MoveableEntry × ByteReader) :=
  match r.readExact 6 with
  | .error e => .error e
  | .ok (buf, r1) =>
    .ok ({ flags := bU8 buf 0, magic := [bU8 buf 1, bU8 buf 2],
           segment := bU8 buf 3, offset := bU16 buf 4 }, r1)

/-- The `for _ in 0..entries_count` loop of `EntryTable::read`: moveable
entries for `seg_id = 0xFF`, fixed entries otherwise. -/
def readNeEntries (r : ByteReader) (seg_id : Nat) :
    (count : Nat) → Except IoErr (List Entry × ByteReader)
  | 0 => .ok ([], r)
  | n + 1 =>
    match (if seg_id = 0xFF then
             (MoveableEntry.read r).map (fun (e, r') => (Entry.moveable e, r'))
           else
             (FixedEntry.read r seg_id).map (fun (e, r') => (Entry.fixed e, r'))) with
    | .error e => .error e
    | .ok (entry, r1) =>
      match readNeEntries r1 seg_id n with
      | .error e => .error e
      | .ok (entries, r2) => .ok (entry :: entries, r2)

/-- The `while bytes_remaining > 0` loop of `EntryTable::read`.  The
remaining-byte counter is a `u16`; the source subtracts 2 from it right
after reading each 2-byte bundle header, which underflows (a debug-build
panic) when only 1 declared byte remains.  `fuel` is an embedding artefact:
the counter shrinks by at least 2 per iteration, so any `fuel` above the
initial counter suffices (`readBundles_fuel_adequate`). -/
def readBundles (fuel : Nat) (remaining : Nat) (r : ByteReader) :
    Except IoErr (List Entry × ByteReader) :=
  if remaining = 0 then .ok ([], r)
  else
    match fuel with
    | 0 => .error .outOfFuel
    | fuel + 1 =>
      match r.readExact 2 with
      | .error e => .error e
      | .ok (buffer, r1) =>
        if remaining < 2 then .error (.panicked "attempt to subtract with overflow")
        else
          let remaining1 := remaining - 2
          let entries_count := bU8 buffer 0
          let seg_id := bU8 buffer 1
          if entries_count = 0 then .ok ([], r1)
          else if seg_id = 0 then
            match readBundles fuel remaining1 r1 with
            | .error e => .error e
            | .ok (es, r2) => .ok (List.replicate entries_count .unused ++ es, r2)
          else
            let entry_size := if seg_id = 0xFF then 6 else 3
            let bundle_size := entries_count * entry_size
            if bundle_size > remaining1 then
              .error (.bundleExceeds bundle_size remaining1)
            else
              match readNeEntries r1 seg_id entries_count with
              | .error e => .error e
              | .ok (es, r2) =>
                match readBundles fuel (remaining1 - bundle_size) r2 with
                | .error e => .error e
                | .ok (es2, r3) => .ok (es ++ es2, r3)

structure EntryTable where
  entries : List Entry
  deriving DecidableEq

/-- `EntryTable::read` (NE): seek to the entry table and decode bundles
against the declared byte length `cb_ent_tab`. -/
def EntryTable.read (r : ByteReader) (e_enttab : Nat) (cb_ent_tab : Nat) :
    Except IoErr (EntryTable × ByteReader) :=
  match readBundles (cb_ent_tab + 1) cb_ent_tab (r.seek e_enttab) with
  | .error e => .error e
  | .ok (entries, r1) => .ok ({ entries }, r1)

/-! ## Concrete inputs used by the claim theorems -/

/-- A 184-byte image whose first two bytes are ASCII `LX` (`0x4C 0x58`,
i.e. the little-endian `u16` `0x584C`) with zero byte/word order. -/
def lxHeaderSource : ByteReader :=
  { data := fun i => if i = 0 then 0x4C else if i = 1 then 0x58 else 0,
    size := 184, pos := 0 }

/-- A 184-byte image of all-zero bytes: magic `0x0000`, which is not an
`LE`/`LX` tag. -/
def zeroMagicSource : ByteReader :=
  { data := fun _ => 0, size := 184, pos := 0 }

/-- Import pool at offset 1 holding the single module name `A`, followed by
the zero-length terminator. -/
def c3Source : ByteReader := listSource [0, 1, 65, 0]

/-- An ImportByName fixup record carrying module ordinal 2, while the pool
of `c3Source` holds only one module. -/
def c3Record : FixupRecord :=
  { source := 0, target_flags := 2, source_offset_or_count := 0,
    target_data := .importedName { module_ordinal := 2, procedure_name_offset := 0 },
    additive_value := none, source_offset_list := none }

def c3ImportData : ImportData :=
  { imp_mod_offset := 1, imp_proc_offset := 0, fixup_records := [c3Record] }

/-- Header for the module-directive decode: magic `0x584C`, directives
iterated from `e32_impmod = 0x10` for `e32_impmodcnt = 1` records. -/
def c4Header : LinearExecutableHeader :=
  { LinearExecutableHeader.parse [] with
      e32_magic := 0x584C, e32_impmod := 0x10, e32_impmodcnt := 1 }

/-- File image for the directive decode: at `0x90` (`e32_impmod + e_lfanew`
with `e_lfanew = 0x80`) an 8-byte directive record with number `0x8001`
(resident), data length 2, data offset 0; every other byte `i` holds
`i % 251`, so the bytes at `0x584C` (the magic value) and at `0x80` (the
header base) differ. -/
def c4Source : ByteReader :=
  { data := fun i =>
      if i = 0x90 then 0x01 else if i = 0x91 then 0x80
      else if i = 0x92 then 2 else if i = 0x93 then 0
      else if i = 0x94 then 0 else if i = 0x95 then 0
      else if i = 0x96 then 0 else if i = 0x97 then 0
      else i % 251,
    size := 30000, pos := 0 }

/-- A fixup page table with one logical page whose record slice is the
single byte range `[0, 1)`. -/
def c2PageTable : FixupPageTable := { page_offsets := [0], end_of_fixup_records := 1 }

/-- A 7-byte fixup record stream: flag bytes `0x07 0x00` (single site
offset, internal target, 8-bit object, 16-bit offset), so the record
occupies bytes `[0, 7)` — far past the 1-byte slice of `c2PageTable`. -/
def c2Source : ByteReader := listSource [0x07, 0x00, 0xAA, 0xBB, 0x05, 0x34, 0x12]

/-- A 30-byte file: room for one whole 24-byte object record and a part of
a second. -/
def c5Source : ByteReader := { data := fun i => i % 256, size := 30, pos := 0 }

/-- A verify-record directive whose data is exactly 16 bytes: dependency
count 1, module ordinal 1, version 0, object count 1, and then exactly 8
remaining bytes — the boundary the per-object bounds check lets through. -/
def c9Directive : ModuleDirective :=
  { directive_type := .verifyRecord,
    data := [1, 0, 1, 0, 0, 0, 1, 0, 0, 0, 0, 0, 0, 0, 0, 0] }

/-- An NE entry table declaring 3 bytes: one bundle header `(1, 0)` (one
unused entry) leaves exactly 1 declared byte, with further file content
after it. -/
def c10Source : ByteReader := listSource [1, 0, 9, 9]

/-- A length-prefixed string of one byte `0xFF` — not valid UTF-8. -/
def c8Source : ByteReader := listSource [1, 0xFF]

/-- A length-prefixed string of one byte `A` — valid UTF-8. -/
def c8AsciiSource : ByteReader := listSource [1, 65]

/-- A 48-byte file holding exactly two object records. -/
def c5LongSource : ByteReader := { data := fun i => i % 256, size := 48, pos := 0 }

/-! ## Byte-layout arithmetic for the fixup record decoder -/

/-- The little-endian `u16` stored at offset `p` of a byte source. -/
def u16At (d : Nat → Nat) (p : Nat) : Nat :=
  d p % 256 + 256 * (d (p + 1) % 256)

/-- The little-endian `u32` stored at offset `p` of a byte source. -/
def u32At (d : Nat → Nat) (p : Nat) : Nat :=
  d p % 256 + 256 * (d (p + 1) % 256) + 65536 * (d (p + 2) % 256) +
    16777216 * (d (p + 3) % 256)

/-- The number of bytes the target fields of a fixup record occupy, per the
flag bits: the object/module/entry number is 2 or 1 bytes (`tgt & 0x40`);
an internal target adds a 4- or 2-byte offset (`tgt & 0x10`) unless the
source type is `0x02`; an ordinal import adds a 1-, 4- or 2-byte ordinal
(`tgt & 0x80` / `tgt & 0x10`); a name import adds a 4- or 2-byte name
offset; an entry-table target adds nothing. -/
def targetSize (flags : FixupFlags) : Nat :=
  (if flags.is_16bit_object_module then 2 else 1) +
    (match flags.target_type with
     | 0 => if flags.source_type ≠ 0x02 then (if flags.is_32bit_target then 4 else 2) else 0
     | 1 => if flags.is_8bit_ordinal then 1
            else if flags.is_32bit_target then 4 else 2
     | 2 => if flags.is_32bit_target then 4 else 2
     | _ => 0)

/-- The number of bytes the optional additive constant occupies: 4 or 2
(`tgt & 0x20`) when `tgt & 0x04` is set, none otherwise. -/
def additiveSize (flags : FixupFlags) : Nat :=
  if flags.has_additive then (if flags.is_32bit_additive then 4 else 2) else 0

/-- A source-list fixup record: `src = 0x27` (source list present), target
internal (8-bit object 1, 16-bit offset `0x1234`), count 3, and three
`u16` source offsets `0x10, 0x20, 0x30`. -/
def c6Source : ByteReader :=
  listSource [0x27, 0x00, 3, 1, 0x34, 0x12, 0x10, 0, 0x20, 0, 0x30, 0]

/-- An NE entry table fragment: bundle header `(1, 0xFF)` followed by one
6-byte moveable entry, 8 declared bytes in total. -/
def c7Source : ByteReader := listSource [1, 0xFF, 0, 0xCD, 0x3F, 2, 0x34, 0x12]

/-! ## C1 — LE/LX magic validation -/

/-- C1: the claim states that `LinearExecutableHeader::read` fails with
BadMagic exactly on inputs whose two bytes are not a valid `LE`/`LX` tag.
The code does the opposite: `invalid_magic` returns `true` exactly on the
`LX`/`LE` magic constants, so `read` rejects the valid `LX` image with the
bad-magic error and accepts the all-zero magic `0x0000`. -/
theorem c1_invalid_magic_inverted :
    LinearExecutableHeader.read lxHeaderSource = .error (.invalidMagic 0x584C) ∧
    ∃ p, LinearExecutableHeader.read zeroMagicSource = .ok p :=
  ⟨rfl, ⟨_, rfl⟩⟩

/-! ## C3 — import resolution with an out-of-range module ordinal -/

/-- C3: the claim states that an ImportByName fixup with a module ordinal
outside `[1, impmodcnt]` yields an InvalidModuleOrdinal error.  The code
builds that error and then calls `.unwrap()` on it, so the decode panics
instead of returning it: module ordinal 2 against a one-module pool. -/
theorem c3_out_of_range_module_ordinal_panics :
    ImportRelocationsTable.read c3Source c3ImportData =
      .error (.panicked "called unwrap on an Err value") :=
  rfl

/-! ## C4 — resident module-directive data offset -/

/-- C4: the claim states that a directive with bit `0x8000` set reads its
data from `headerBase + dataOffset`.  The code instead adds the *magic
field value* `e32_magic`: with header base `0x80` and data offset 0 the
two data bytes come from file offsets `0x584C` and `0x584D` (bytes
`14, 15` of `c4Source`), not from `0x80` (bytes `128, 129`). -/
theorem c4_resident_directive_uses_magic_as_base :
    ModuleDirectivesTable.read c4Source c4Header 0x80 =
      .ok ({ directives := [{ directive_type := .verifyRecord, data := [14, 15] }] },
           c4Source.seek 0x98) ∧
    [14, 15] ≠ [c4Source.data 0x80 % 256, c4Source.data 0x81 % 256] :=
  ⟨rfl, by decide⟩

/-! ## C9 — verify-record object bounds check -/

/-- C9: the claim states the verify-record decoder never indexes past the
end of the directive data.  With exactly 8 bytes remaining for a per-object
record the guard `offset + 8 > data.len()` passes, but the decoder then
indexes `data[offset + 8]` and `data[offset + 9]` — out of bounds, a
panic. -/
theorem c9_verify_record_object_read_out_of_bounds :
    read_verify_record c9Directive = .error (.panicked "index out of bounds") :=
  rfl

/-! ## C10 — NE entry-table remaining-byte counter -/

/-- C10: with a declared table length of 3 bytes, the bundle `(1, 0)`
consumes 2, leaving the `u16` counter at 1; the loop re-enters, reads the
next 2-byte header from following file content and subtracts 2 from 1 —
a `u16` underflow (debug-build panic) instead of stopping or erroring. -/
theorem c10_entry_table_remaining_underflow :
    EntryTable.read c10Source 0 3 =
      .error (.panicked "attempt to subtract with overflow") :=
  rfl

/-! ## C2 — fixup records and the per-page slice boundary -/

/-- C2 counterexample: the claim states that a record extending past the
per-page slice end `pageIndex[i+1]` is a decode error for that page.  Here
the slice is `[0, 1)` but the single record occupies bytes `[0, 7)`: the
decode succeeds, and the decoded object number (5) and target offset
(`0x1234`) are taken from stream bytes 4–6, at and beyond the slice end. -/
theorem c2_record_crosses_slice_end :
    FixupRecordsTable.read c2Source c2PageTable 0 =
      .ok ({ records := [{ source := 7, target_flags := 0,
                           source_offset_or_count := 0xBBAA,
                           target_data := .internal { object_number := 5,
                                                      target_offset := some 0x1234 },
                           additive_value := none, source_offset_list := none }] },
           (listSource [0x07, 0x00, 0xAA, 0xBB, 0x05, 0x34, 0x12]).seek 7) :=
  rfl

/-! ## C5 — table-count ceilings -/

/-- C5 counterexample: the claim states that an object count above 65535
fails with an ImplausibleCount error instead of attempting to read that
many records.  No such ceiling exists: with a declared count of 70000 the
decoder reads the first 24-byte record from `c5Source` and fails with a
short read on the second. -/
theorem c5_no_implausible_count_check :
    ObjectsTable.read c5Source 0 70000 = .error .truncated :=
  rfl

/-! ## C8 — length-prefixed strings and the textual view -/

/-- C8 counterexample: the claim states that converting a decoded string to
text never fails.  `PascalString::to_string` calls
`str::from_utf8(..).expect(..)`, which panics on the decoded one-byte
string `0xFF`. -/
theorem c8_to_string_panics_on_invalid_utf8 :
    read_pascal_string c8Source = .ok (PascalString.new 1 [0xFF], c8Source.seek 2) ∧
    (PascalString.new 1 [0xFF]).to_string = .error (.panicked "invalid utf-8 sequence") :=
  ⟨rfl, rfl⟩

/-- C8 amended: a length byte of zero decodes to the empty string whose
textual view succeeds; the decoded bytes are kept verbatim (the stored
length always matches the byte count); but the textual view is not lossy —
it returns the bytes exactly when they are valid UTF-8 and panics
otherwise. -/
theorem c8_len_string_read_total (r : ByteReader) (p : PascalString) (r' : ByteReader)
    (h : read_pascal_string r = .ok (p, r')) :
    p.string.length = p.length ∧
    (p.length = 0 → p = PascalString.empty ∧ p.to_string = .ok []) ∧
    (validUtf8 p.string = true → p.to_string = .ok p.string) ∧
    (validUtf8 p.string = false →
      p.to_string = .error (.panicked "invalid utf-8 sequence")) := by
  have key : p.string.length = p.length ∧ (p.length = 0 → p = PascalString.empty) := by
    unfold read_pascal_string at h
    split at h
    · exact absurd h (by simp)
    · rename_i len r1 hu
      split at h
      · injection h with h1
        injection h1 with h2 h3
        subst h2
        exact ⟨rfl, fun _ => rfl⟩
      · rename_i hlen
        split at h
        · exact absurd h (by simp)
        · rename_i bytes r2 he
          injection h with h1
          injection h1 with h2 h3
          subst h2
          unfold ByteReader.readExact at he
          split at he
          · injection he with he1
            injection he1 with he2 he3
            refine ⟨?_, fun h0 => absurd h0 hlen⟩
            simp [PascalString.new, ← he2]
          · exact absurd he (by simp)
  obtain ⟨k1, k2⟩ := key
  refine ⟨k1, fun h0 => ⟨k2 h0, ?_⟩, fun hv => ?_, fun hv => ?_⟩
  · rw [k2 h0]; rfl
  · simp [PascalString.to_string, hv]
  · simp [PascalString.to_string, hv]

/-- Witness for `c8_len_string_read_total` at the decoded ASCII string
`A`. -/
theorem c8_len_string_read_total_witness :
    (PascalString.new 1 [65]).to_string = .ok [65] :=
  (c8_len_string_read_total c8AsciiSource (PascalString.new 1 [65])
    (c8AsciiSource.seek 2) rfl).2.2.1 rfl

/-! ## C2 amended — slice boundary checked only at record starts -/

/-- C2 amended: the per-page loop begins a record only while the stream
position is strictly below the slice end and stops at the first record
boundary at or beyond it — when the page decode succeeds the final
position is at or past the slice end, no record was started at or past it,
and a page whose slice start is already at or past the end decodes to no
records at all. -/
theorem c2_slice_guard_only_at_record_start (fuel bound : Nat) (r : ByteReader)
    (recs : List FixupRecord) (r' : ByteReader)
    (h : readPageRecords fuel bound r = .ok (recs, r')) :
    bound ≤ r'.pos ∧ (bound ≤ r.pos → recs = [] ∧ r' = r) ∧
      (recs ≠ [] → r.pos < bound) := by
  induction fuel generalizing r recs r' with
  | zero =>
    unfold readPageRecords at h
    split at h
    · exact absurd h (by simp)
    · rename_i hlt
      injection h with h1
      injection h1 with h2 h3
      subst h2 h3
      exact ⟨by omega, fun _ => ⟨rfl, rfl⟩, fun hne => absurd rfl hne⟩
  | succ fuel ih =>
    unfold readPageRecords at h
    by_cases hlt : r.pos < bound
    · simp only [if_pos hlt] at h
      split at h
      · exact absurd h (by simp)
      · rename_i record r1 hs
        split at h
        · exact absurd h (by simp)
        · rename_i records r2 hrec
          injection h with h1
          injection h1 with h2 h3
          subst h2 h3
          obtain ⟨hb, -, -⟩ := ih r1 records r2 hrec
          exact ⟨hb, fun hge => absurd hlt (by omega), fun _ => hlt⟩
    · simp only [if_neg hlt] at h
      injection h with h1
      injection h1 with h2 h3
      subst h2 h3
      exact ⟨by omega, fun _ => ⟨rfl, rfl⟩, fun hne => absurd rfl hne⟩

/-- Witness for `c2_slice_guard_only_at_record_start` on the concrete page
of `c2Source`: the slice end is 1 and the final position is 7. -/
theorem c2_slice_guard_witness :
    ∃ recs r', readPageRecords 2 1 (c2Source.seek 0) = .ok (recs, r') ∧ 1 ≤ r'.pos :=
  ⟨_, _, rfl, (c2_slice_guard_only_at_record_start 2 1 (c2Source.seek 0) _ _ rfl).1⟩

/-! ## C5 amended — no ceiling, the declared count is read in full -/

/-- Helper: the object-table loop reads exactly `count` 24-byte records
whenever it succeeds, for any `count` whatsoever. -/
theorem readObjects_length (count : Nat) (r : ByteReader) (objs : List Object)
    (r' : ByteReader) (h : readObjects r count = .ok (objs, r')) :
    objs.length = count ∧ r'.pos = r.pos + 24 * count := by
  induction count generalizing r objs r' with
  | zero =>
    injection h with h1
    injection h1 with h2 h3
    subst h2 h3
    simp
  | succ n ih =>
    unfold readObjects at h
    split at h
    · exact absurd h (by simp)
    · rename_i buf r1 he
      split at h
      · exact absurd h (by simp)
      · rename_i objs2 r2 hrec
        injection h with h1
        injection h1 with h2 h3
        subst h2 h3
        obtain ⟨hl, hp⟩ := ih r1 objs2 r2 hrec
        unfold ByteReader.readExact at he
        split at he
        · injection he with he1
          injection he1 with he2 he3
          constructor
          · simp [hl]
          · rw [hp, ← he3]; simp; omega
        · exact absurd he (by simp)

/-- C5 amended: the implementation enforces no table-count ceiling and has
no ImplausibleCount error; `ObjectsTable::read` attempts to read exactly
the declared number of 24-byte records for any count, however large,
failing with a short read when the input ends first. -/
theorem c5_reads_declared_count (r : ByteReader) (objtab count : Nat)
    (t : ObjectsTable) (r' : ByteReader)
    (h : ObjectsTable.read r objtab count = .ok (t, r')) :
    t.objects.length = count ∧ r'.pos = objtab + 24 * count := by
  unfold ObjectsTable.read at h
  cases ho : readObjects (r.seek objtab) count with
  | error e => rw [ho] at h; exact absurd h (by simp)
  | ok v =>
    obtain ⟨objs, r1⟩ := v
    rw [ho] at h
    obtain ⟨ht, hr⟩ := Prod.mk.injEq .. ▸ (Except.ok.injEq .. ▸ h)
    obtain ⟨hl, hp⟩ := readObjects_length count (r.seek objtab) objs r1 ho
    exact ⟨ht ▸ hl, hr ▸ hp⟩

/-- Witness for `c5_reads_declared_count` at a declared count of 2. -/
theorem c5_reads_declared_count_witness :
    ∃ t r', ObjectsTable.read c5LongSource 0 2 = .ok (t, r') ∧
      t.objects.length = 2 ∧ r'.pos = 48 :=
  ⟨_, _, rfl, (c5_reads_declared_count c5LongSource 0 2 _ _ rfl).1,
    (c5_reads_declared_count c5LongSource 0 2 _ _ rfl).2⟩

/-! ## Reader-primitive lemmas -/

/-- A successful `read_exact` yields the `n` bytes at the current position
and advances the position by exactly `n`. -/
theorem readExact_ok (r : ByteReader) (n : Nat) (bs : List Nat) (r' : ByteReader)
    (h : r.readExact n = .ok (bs, r')) :
    bs = (List.range n).map (fun i => r.data (r.pos + i) % 256) ∧
    r' = { r with pos := r.pos + n } ∧ r.pos + n ≤ r.size := by
  unfold ByteReader.readExact at h
  split at h
  · rename_i hle
    injection h with h1
    injection h1 with h2 h3
    exact ⟨h2.symm, h3.symm, hle⟩
  · exact absurd h (by simp)

/-- A successful one-byte read yields the byte at the current position. -/
theorem readU8_ok (r : ByteReader) (v : Nat) (r' : ByteReader)
    (h : r.readU8 = .ok (v, r')) :
    v = r.data r.pos % 256 ∧ r' = { r with pos := r.pos + 1 } ∧ r.pos + 1 ≤ r.size := by
  unfold ByteReader.readU8 at h
  split at h
  · rename_i bs r1 he
    obtain ⟨hbs, hr1, hle⟩ := readExact_ok _ _ _ _ he
    injection h with h1
    injection h1 with h2 h3
    subst h2 h3
    refine ⟨?_, hr1, hle⟩
    simp [hbs]
  · exact absurd h (by simp)

/-- A successful `u16` read yields the little-endian `u16` at the current
position and advances by 2. -/
theorem readU16_ok (r : ByteReader) (v : Nat) (r' : ByteReader)
    (h : r.readU16 = .ok (v, r')) :
    v = u16At r.data r.pos ∧ r' = { r with pos := r.pos + 2 } ∧ r.pos + 2 ≤ r.size := by
  unfold ByteReader.readU16 at h
  split at h
  · rename_i bs r1 he
    obtain ⟨hbs, hr1, hle⟩ := readExact_ok _ _ _ _ he
    injection h with h1
    injection h1 with h2 h3
    subst h2 h3
    refine ⟨?_, hr1, hle⟩
    simp [hbs, u16At, List.range_succ]
  · exact absurd h (by simp)

/-- A successful `u32` read yields the little-endian `u32` at the current
position and advances by 4. -/
theorem readU32_ok (r : ByteReader) (v : Nat) (r' : ByteReader)
    (h : r.readU32 = .ok (v, r')) :
    v = u32At r.data r.pos ∧ r' = { r with pos := r.pos + 4 } ∧ r.pos + 4 ≤ r.size := by
  unfold ByteReader.readU32 at h
  split at h
  · rename_i bs r1 he
    obtain ⟨hbs, hr1, hle⟩ := readExact_ok _ _ _ _ he
    injection h with h1
    injection h1 with h2 h3
    subst h2 h3
    refine ⟨?_, hr1, hle⟩
    simp [hbs, u32At, List.range_succ]
  · exact absurd h (by simp)

/-- The object/module/entry number of a fixup target is 2 or 1 bytes wide
per `tgt & 0x40`. -/
theorem readSized2_ok (b : Bool) (r : ByteReader) (v : Nat) (r' : ByteReader)
    (h : (if b then r.readU16 else r.readU8) = .ok (v, r')) :
    r' = { r with pos := r.pos + (if b then 2 else 1) } := by
  cases b
  · rw [if_neg (by decide)] at h
    rw [if_neg (by decide)]
    exact (readU8_ok _ _ _ h).2.1
  · rw [if_pos rfl] at h
    rw [if_pos rfl]
    exact (readU16_ok _ _ _ h).2.1

/-- A 4-or-2-byte field decodes to the little-endian value at the current
position and advances accordingly. -/
theorem readSized4_ok (b : Bool) (r : ByteReader) (v : Nat) (r' : ByteReader)
    (h : (if b then r.readU32 else r.readU16) = .ok (v, r')) :
    v = (if b then u32At r.data r.pos else u16At r.data r.pos) ∧
    r' = { r with pos := r.pos + (if b then 4 else 2) } := by
  cases b
  · rw [if_neg (by decide)] at h
    rw [if_neg (by decide), if_neg (by decide)]
    exact ⟨(readU16_ok _ _ _ h).1, (readU16_ok _ _ _ h).2.1⟩
  · rw [if_pos rfl] at h
    rw [if_pos rfl, if_pos rfl]
    exact ⟨(readU32_ok _ _ _ h).1, (readU32_ok _ _ _ h).2.1⟩

/-- An internal fixup target consumes exactly its layout size. -/
theorem read_internal_target_ok (r : ByteReader) (flags : FixupFlags)
    (t : FixupTarget) (r' : ByteReader)
    (h : read_internal_target r flags = .ok (t, r')) (htt : flags.target_type = 0) :
    r' = { r with pos := r.pos + targetSize flags } := by
  unfold read_internal_target at h
  split at h
  · exact absurd h (by simp)
  · rename_i object_number r1 h1
    have hr1 := readSized2_ok _ _ _ _ h1
    subst hr1
    split at h
    · rename_i hst
      split at h
      · exact absurd h (by simp)
      · rename_i off r2 h2
        have hr2 := (readSized4_ok _ _ _ _ h2).2
        injection h with hh
        injection hh with hh1 hh2
        subst hh2
        rw [hr2]
        simp only [ByteReader.mk.injEq, true_and]
        simp only [targetSize, htt, if_pos hst]
        omega
    · rename_i hst
      injection h with hh
      injection hh with hh1 hh2
      subst hh2
      simp only [ByteReader.mk.injEq, true_and]
      simp only [targetSize, htt, if_neg hst]
      omega

/-- An imported-by-ordinal fixup target consumes exactly its layout
size. -/
theorem read_imported_ordinal_target_ok (r : ByteReader) (flags : FixupFlags)
    (t : FixupTarget) (r' : ByteReader)
    (h : read_imported_ordinal_target r flags = .ok (t, r')) (htt : flags.target_type = 1) :
    r' = { r with pos := r.pos + targetSize flags } := by
  unfold read_imported_ordinal_target at h
  split at h
  · exact absurd h (by simp)
  · rename_i module_ordinal r1 h1
    have hr1 := readSized2_ok _ _ _ _ h1
    subst hr1
    split at h
    · exact absurd h (by simp)
    · rename_i ord r2 h2
      injection h with hh
      injection hh with hh1 hh2
      subst hh2
      by_cases h8 : flags.is_8bit_ordinal
      · rw [if_pos h8] at h2
        have := (readU8_ok _ _ _ h2).2.1
        rw [this]
        simp only [ByteReader.mk.injEq, true_and]
        simp only [targetSize, htt, if_pos h8]
        omega
      · rw [if_neg h8] at h2
        have := (readSized4_ok _ _ _ _ h2).2
        rw [this]
        simp only [ByteReader.mk.injEq, true_and]
        simp only [targetSize, htt, if_neg h8]
        by_cases h32 : flags.is_32bit_target
        · simp only [if_pos h32]; omega
        · simp only [if_neg h32]; omega

/-- An imported-by-name fixup target consumes exactly its layout size. -/
theorem read_imported_name_target_ok (r : ByteReader) (flags : FixupFlags)
    (t : FixupTarget) (r' : ByteReader)
    (h : read_imported_name_target r flags = .ok (t, r')) (htt : flags.target_type = 2) :
    r' = { r with pos := r.pos + targetSize flags } := by
  unfold read_imported_name_target at h
  split at h
  · exact absurd h (by simp)
  · rename_i module_ordinal r1 h1
    have hr1 := readSized2_ok _ _ _ _ h1
    subst hr1
    split at h
    · exact absurd h (by simp)
    · rename_i off r2 h2
      injection h with hh
      injection hh with hh1 hh2
      subst hh2
      have := (readSized4_ok _ _ _ _ h2).2
      rw [this]
      simp only [ByteReader.mk.injEq, true_and]
      simp only [targetSize, htt]
      omega

/-- An entry-table fixup target consumes exactly its layout size. -/
theorem read_entry_table_target_ok (r : ByteReader) (flags : FixupFlags)
    (t : FixupTarget) (r' : ByteReader)
    (h : read_entry_table_target r flags = .ok (t, r')) (htt : flags.target_type = 3) :
    r' = { r with pos := r.pos + targetSize flags } := by
  unfold read_entry_table_target at h
  split at h
  · exact absurd h (by simp)
  · rename_i entry_number r1 h1
    have hr1 := readSized2_ok _ _ _ _ h1
    subst hr1
    injection h with hh
    injection hh with hh1 hh2
    subst hh2
    simp only [ByteReader.mk.injEq, true_and]
    simp only [targetSize, htt]
    omega

/-- A successfully decoded fixup target consumes exactly `targetSize`
bytes. -/
theorem read_target_data_ok (r : ByteReader) (flags : FixupFlags)
    (t : FixupTarget) (r' : ByteReader)
    (h : read_target_data r flags = .ok (t, r')) :
    r' = { r with pos := r.pos + targetSize flags } := by
  unfold read_target_data at h
  split at h
  · exact read_internal_target_ok _ _ _ _ h (by assumption)
  · exact read_imported_ordinal_target_ok _ _ _ _ h (by assumption)
  · exact read_imported_name_target_ok _ _ _ _ h (by assumption)
  · exact read_entry_table_target_ok _ _ _ _ h (by assumption)
  · exact absurd h (by simp)

/-- The trailing source-offset list decodes to the `count` little-endian
`u16` values stored consecutively from the current position. -/
theorem readU16List_ok (n : Nat) (r : ByteReader) (l : List Nat) (r' : ByteReader)
    (h : readU16List r n = .ok (l, r')) :
    l = (List.range n).map (fun k => u16At r.data (r.pos + 2 * k)) ∧
    r' = { r with pos := r.pos + 2 * n } := by
  induction n generalizing r l r' with
  | zero =>
    injection h with h1
    injection h1 with h2 h3
    subst h2 h3
    simp
  | succ n ih =>
    unfold readU16List at h
    split at h
    · exact absurd h (by simp)
    · rename_i v r1 h1
      split at h
      · exact absurd h (by simp)
      · rename_i vs r2 hrec
        injection h with hh
        injection hh with hh1 hh2
        subst hh1 hh2
        obtain ⟨hv, hr1, -⟩ := readU16_ok _ _ _ h1
        subst hr1
        obtain ⟨hl, hr2⟩ := ih _ _ _ hrec
        dsimp only at hl hr2
        constructor
        · rw [hl, hv, List.range_succ_eq_map, List.map_cons, List.map_map]
          congr 1
          apply List.map_congr_left
          intro k _
          simp only [Function.comp]
          have hp : r.pos + 2 * (k + 1) = r.pos + 2 + 2 * k := by omega
          rw [hp]
        · rw [hr2]
          simp only [ByteReader.mk.injEq, true_and]
          omega

/-- C6: a fixup record is laid out as the two flag bytes; then — in
source-list form (`src & 0x20`) — a one-byte count in place of the `u16`
site offset, the target fields of `tgt & 0x03` (`targetSize` bytes), the
optional additive constant (`u32` when `tgt & 0x20`, `u16` otherwise, only
when `tgt & 0x04`), and finally the count's `u16` source offsets; without
`src & 0x20`, a single `u16` site offset follows the flag bytes and no
source-offset list is read. -/
theorem c6_fixup_record_field_order (r : ByteReader) (rec : FixupRecord)
    (r' : ByteReader) (flags : FixupFlags)
    (h : read_single_fixup_record r = .ok (rec, r'))
    (hflags : flags = FixupFlags.from_bytes rec.source rec.target_flags) :
    rec.source = r.data r.pos % 256 ∧
    rec.target_flags = r.data (r.pos + 1) % 256 ∧
    (flags.has_source_list = true →
      rec.source_offset_or_count = r.data (r.pos + 2) % 256 ∧
      rec.source_offset_list =
        some ((List.range rec.source_offset_or_count).map (fun k =>
          u16At r.data (r.pos + 3 + targetSize flags + additiveSize flags + 2 * k))) ∧
      r'.pos = r.pos + 3 + targetSize flags + additiveSize flags +
        2 * rec.source_offset_or_count) ∧
    (flags.has_source_list = false →
      rec.source_offset_or_count = u16At r.data (r.pos + 2) ∧
      rec.source_offset_list = none ∧
      r'.pos = r.pos + 4 + targetSize flags + additiveSize flags) ∧
    (flags.has_additive = true →
      rec.additive_value = some (if flags.is_32bit_additive = true
        then u32At r.data
          (r.pos + (if flags.has_source_list = true then 3 else 4) + targetSize flags)
        else u16At r.data
          (r.pos + (if flags.has_source_list = true then 3 else 4) + targetSize flags))) ∧
    (flags.has_additive = false → rec.additive_value = none) ∧
    (∃ rt, read_target_data
        { r with pos := r.pos + (if flags.has_source_list = true then 3 else 4) } flags =
      .ok (rec.target_data, rt)) := by
  subst hflags
  unfold read_single_fixup_record at h
  split at h
  · exact absurd h (by simp)
  rename_i source r1 h1
  split at h
  · exact absurd h (by simp)
  rename_i target_flags r2 h2
  dsimp only at h
  split at h
  · exact absurd h (by simp)
  rename_i soc r3 h3
  split at h
  · exact absurd h (by simp)
  rename_i tdata r4 h4
  split at h
  · exact absurd h (by simp)
  rename_i adv r5 h5
  split at h
  · exact absurd h (by simp)
  rename_i soffl r6 h6
  injection h with hh
  injection hh with hh1 hh2
  subst hh2
  subst hh1
  dsimp only
  obtain ⟨hv1, hr1, -⟩ := readU8_ok _ _ _ h1
  subst hr1
  obtain ⟨hv2, hr2, -⟩ := readU8_ok _ _ _ h2
  dsimp only at hv2 hr2
  subst hr2
  by_cases hsl : (FixupFlags.from_bytes source target_flags).has_source_list = true
  · -- source-list form
    rw [if_pos hsl] at h3 h6
    obtain ⟨hv3, hr3, -⟩ := readU8_ok _ _ _ h3
    dsimp only at hv3 hr3
    subst hr3
    have hr4 := read_target_data_ok _ _ _ _ h4
    dsimp only at hr4
    subst hr4
    by_cases hha : (FixupFlags.from_bytes source target_flags).has_additive = true
    · rw [if_pos hha] at h5
      cases hx : (if (FixupFlags.from_bytes source target_flags).is_32bit_additive = true
          then ByteReader.readU32 _ else ByteReader.readU16 _) with
      | error e =>
        rw [hx] at h5
        exact absurd h5 (by simp [Except.map])
      | ok p =>
        obtain ⟨pv, pr⟩ := p
        rw [hx] at h5
        simp only [Except.map] at h5
        injection h5 with h5a
        injection h5a with h5b h5c
        subst h5b h5c
        obtain ⟨hpv, hpr⟩ := readSized4_ok _ _ _ _ hx
        dsimp only at hpv hpr
        subst hpr
        cases hy : readU16List _ soc with
        | error e =>
          rw [hy] at h6
          exact absurd h6 (by simp [Except.map])
        | ok q =>
          obtain ⟨ql, qr⟩ := q
          rw [hy] at h6
          simp only [Except.map] at h6
          injection h6 with h6a
          injection h6a with h6b h6c
          subst h6b h6c
          obtain ⟨hql, hqr⟩ := readU16List_ok _ _ _ _ hy
          dsimp only at hql hqr
          subst hqr
          have haS : additiveSize (FixupFlags.from_bytes source target_flags) =
              (if (FixupFlags.from_bytes source target_flags).is_32bit_additive = true
               then 4 else 2) := by
            simp [additiveSize, hha]
          refine ⟨hv1, hv2, fun _ => ⟨hv3, ?_, ?_⟩,
            fun hfalse => absurd (hsl.symm.trans hfalse) (by decide),
            fun _ => ?_, fun hfalse => absurd (hha.symm.trans hfalse) (by decide), ?_⟩
          · rw [hql, haS]
          · rw [haS]
          · rw [hpv, hsl]
            rfl
          · rw [hsl]
            exact ⟨_, h4⟩
    · rw [if_neg hha] at h5
      injection h5 with h5a
      injection h5a with h5b h5c
      subst h5b h5c
      cases hy : readU16List _ soc with
      | error e =>
        rw [hy] at h6
        exact absurd h6 (by simp [Except.map])
      | ok q =>
        obtain ⟨ql, qr⟩ := q
        rw [hy] at h6
        simp only [Except.map] at h6
        injection h6 with h6a
        injection h6a with h6b h6c
        subst h6b h6c
        obtain ⟨hql, hqr⟩ := readU16List_ok _ _ _ _ hy
        dsimp only at hql hqr
        subst hqr
        have hha2 : (FixupFlags.from_bytes source target_flags).has_additive = false := by
          simpa using hha
        have haS : additiveSize (FixupFlags.from_bytes source target_flags) = 0 := by
          simp [additiveSize, hha2]
        refine ⟨hv1, hv2, fun _ => ⟨hv3, ?_, ?_⟩,
          fun hfalse => absurd (hsl.symm.trans hfalse) (by decide),
          fun htrue => absurd (hha2.symm.trans htrue) (by decide),
          fun _ => rfl, ?_⟩
        · rw [hql, haS]
          rfl
        · rw [haS]
          rfl
        · rw [hsl]
          exact ⟨_, h4⟩
  · -- single site offset form
    have hsl2 : (FixupFlags.from_bytes source target_flags).has_source_list = false := by
      simpa using hsl
    rw [if_neg hsl] at h3 h6
    obtain ⟨hv3, hr3, -⟩ := readU16_ok _ _ _ h3
    dsimp only at hv3 hr3
    subst hr3
    have hr4 := read_target_data_ok _ _ _ _ h4
    dsimp only at hr4
    subst hr4
    injection h6 with h6a
    injection h6a with h6b h6c
    subst h6b h6c
    by_cases hha : (FixupFlags.from_bytes source target_flags).has_additive = true
    · rw [if_pos hha] at h5
      cases hx : (if (FixupFlags.from_bytes source target_flags).is_32bit_additive = true
          then ByteReader.readU32 _ else ByteReader.readU16 _) with
      | error e =>
        rw [hx] at h5
        exact absurd h5 (by simp [Except.map])
      | ok p =>
        obtain ⟨pv, pr⟩ := p
        rw [hx] at h5
        simp only [Except.map] at h5
        injection h5 with h5a
        injection h5a with h5b h5c
        subst h5b h5c
        obtain ⟨hpv, hpr⟩ := readSized4_ok _ _ _ _ hx
        dsimp only at hpv hpr
        subst hpr
        have haS : additiveSize (FixupFlags.from_bytes source target_flags) =
            (if (FixupFlags.from_bytes source target_flags).is_32bit_additive = true
             then 4 else 2) := by
          simp [additiveSize, hha]
        refine ⟨hv1, hv2,
          fun htrue => absurd (hsl2.symm.trans htrue) (by decide),
          fun _ => ⟨hv3, rfl, ?_⟩, fun _ => ?_,
          fun hfalse => absurd (hha.symm.trans hfalse) (by decide), ?_⟩
        · rw [haS]
        · rw [hpv, hsl2]
          rfl
        · rw [hsl2]
          exact ⟨_, h4⟩
    · rw [if_neg hha] at h5
      injection h5 with h5a
      injection h5a with h5b h5c
      subst h5b h5c
      have hha2 : (FixupFlags.from_bytes source target_flags).has_additive = false := by
        simpa using hha
      have haS : additiveSize (FixupFlags.from_bytes source target_flags) = 0 := by
        simp [additiveSize, hha2]
      refine ⟨hv1, hv2,
        fun htrue => absurd (hsl2.symm.trans htrue) (by decide),
        fun _ => ⟨hv3, rfl, ?_⟩,
        fun htrue => absurd (hha2.symm.trans htrue) (by decide),
        fun _ => rfl, ?_⟩
      · rw [haS]
        dsimp only
        omega
      · rw [hsl2]
        exact ⟨_, h4⟩

/-- Witness for `c6_fixup_record_field_order` on the concrete source-list
record of `c6Source` (count 3, internal target, three trailing `u16`
source offsets). -/
theorem c6_fixup_record_field_order_witness :
    ∃ rec r', read_single_fixup_record c6Source = .ok (rec, r') ∧
      (rec.source_offset_or_count = c6Source.data (c6Source.pos + 2) % 256 ∧
       rec.source_offset_list =
         some ((List.range rec.source_offset_or_count).map (fun k =>
           u16At c6Source.data (c6Source.pos + 3 +
             targetSize (FixupFlags.from_bytes rec.source rec.target_flags) +
             additiveSize (FixupFlags.from_bytes rec.source rec.target_flags) + 2 * k))) ∧
       r'.pos = c6Source.pos + 3 +
         targetSize (FixupFlags.from_bytes rec.source rec.target_flags) +
         additiveSize (FixupFlags.from_bytes rec.source rec.target_flags) +
         2 * rec.source_offset_or_count) :=
  ⟨_, _, rfl, (c6_fixup_record_field_order c6Source _ _ _ rfl rfl).2.2.1 (by decide)⟩

/-- Helper: a successful NE entry loop yields exactly `count` entries of
the bundle's variant (6-byte moveable for `seg_id = 0xFF`, 3-byte fixed
carrying `seg_id` otherwise) and advances by `count` times the entry
size. -/
theorem readNeEntries_spec (seg_id count : Nat) (r : ByteReader) (es : List Entry)
    (r' : ByteReader) (h : readNeEntries r seg_id count = .ok (es, r')) :
    es.length = count ∧
    r' = { r with pos := r.pos + count * (if seg_id = 0xFF then 6 else 3) } ∧
    (∀ e ∈ es, (seg_id = 0xFF → ∃ m, e = .moveable m) ∧
               (seg_id ≠ 0xFF → ∃ f, e = .fixed f ∧ f.segment = seg_id)) := by
  induction count generalizing r es r' with
  | zero =>
    injection h with h1
    injection h1 with h2 h3
    subst h2 h3
    refine ⟨rfl, by simp, by simp⟩
  | succ n ih =>
    unfold readNeEntries at h
    by_cases hseg : seg_id = 0xFF
    · rw [if_pos hseg] at h
      split at h
      · exact absurd h (by simp)
      · rename_i entry r1 hentry
        split at h
        · exact absurd h (by simp)
        · rename_i es2 r2 hrec
          injection h with hh
          injection hh with hh1 hh2
          subst hh1 hh2
          cases hm : MoveableEntry.read r with
          | error e =>
            rw [hm] at hentry
            exact absurd hentry (by simp [Except.map])
          | ok p =>
            obtain ⟨me, rm⟩ := p
            rw [hm] at hentry
            simp only [Except.map] at hentry
            injection hentry with hent1
            injection hent1 with hent2 hent3
            subst hent2 hent3
            unfold MoveableEntry.read at hm
            split at hm
            · exact absurd hm (by simp)
            · rename_i buf rb he
              injection hm with hm1
              injection hm1 with hm2 hm3
              subst hm3
              obtain ⟨-, hrb, -⟩ := readExact_ok _ _ _ _ he
              subst hrb
              obtain ⟨hlen, hr2, hkinds⟩ := ih _ _ _ hrec
              dsimp only at hr2
              subst hr2
              refine ⟨by simp [hlen], ?_, ?_⟩
              · rw [if_pos hseg]
                simp only [ByteReader.mk.injEq, true_and]
                omega
              · intro e he2
                rcases List.mem_cons.mp he2 with hh | hh
                · subst hh
                  exact ⟨fun _ => ⟨me, rfl⟩, fun hne => absurd hseg hne⟩
                · exact hkinds e hh
    · rw [if_neg hseg] at h
      split at h
      · exact absurd h (by simp)
      · rename_i entry r1 hentry
        split at h
        · exact absurd h (by simp)
        · rename_i es2 r2 hrec
          injection h with hh
          injection hh with hh1 hh2
          subst hh1 hh2
          cases hm : FixedEntry.read r seg_id with
          | error e =>
            rw [hm] at hentry
            exact absurd hentry (by simp [Except.map])
          | ok p =>
            obtain ⟨fe, rm⟩ := p
            rw [hm] at hentry
            simp only [Except.map] at hentry
            injection hentry with hent1
            injection hent1 with hent2 hent3
            subst hent2 hent3
            unfold FixedEntry.read at hm
            split at hm
            · exact absurd hm (by simp)
            · rename_i buf rb he
              injection hm with hm1
              injection hm1 with hm2 hm3
              subst hm3
              obtain ⟨-, hrb, -⟩ := readExact_ok _ _ _ _ he
              subst hrb
              obtain ⟨hlen, hr2, hkinds⟩ := ih _ _ _ hrec
              dsimp only at hr2
              subst hr2
              refine ⟨by simp [hlen], ?_, ?_⟩
              · rw [if_neg hseg]
                simp only [ByteReader.mk.injEq, true_and]
                omega
              · intro e he2
                rcases List.mem_cons.mp he2 with hh | hh
                · subst hh
                  refine ⟨fun htrue => absurd htrue hseg, fun _ => ⟨fe, rfl, ?_⟩⟩
                  rw [← hm2]
                · exact hkinds e hh

/-- C7: one step of the NE entry-table bundle loop, for any bundle header
`(count, segId)` read from the stream: `count = 0` ends the table
regardless of remaining declared bytes; `segId = 0` yields `count` unused
entries consuming no entry bytes; otherwise the bundle size
`count * entrySize` (6 for `segId = 0xFF`, 3 otherwise) is checked against
the remaining declared bytes first — exceeding them is the invalid-bundle
error — and a passing bundle decodes `count` moveable (`segId = 0xFF`,
6 bytes each) or fixed (3 bytes each, carrying `segId`) entries. -/
theorem c7_entry_bundle_decode (fuel remaining : Nat) (r : ByteReader)
    (buffer : List Nat) (r1 : ByteReader)
    (hrem : 2 ≤ remaining)
    (hread : r.readExact 2 = .ok (buffer, r1)) :
    (bU8 buffer 0 = 0 → readBundles (fuel + 1) remaining r = .ok ([], r1)) ∧
    (bU8 buffer 0 ≠ 0 → bU8 buffer 1 = 0 →
      readBundles (fuel + 1) remaining r =
        (readBundles fuel (remaining - 2) r1).map (fun p =>
          (List.replicate (bU8 buffer 0) .unused ++ p.1, p.2))) ∧
    (bU8 buffer 0 ≠ 0 → bU8 buffer 1 ≠ 0 →
      bU8 buffer 0 * (if bU8 buffer 1 = 0xFF then 6 else 3) > remaining - 2 →
      readBundles (fuel + 1) remaining r =
        .error (.bundleExceeds
          (bU8 buffer 0 * (if bU8 buffer 1 = 0xFF then 6 else 3)) (remaining - 2))) ∧
    (bU8 buffer 0 ≠ 0 → bU8 buffer 1 ≠ 0 →
      bU8 buffer 0 * (if bU8 buffer 1 = 0xFF then 6 else 3) ≤ remaining - 2 →
      ∀ es r2, readNeEntries r1 (bU8 buffer 1) (bU8 buffer 0) = .ok (es, r2) →
        es.length = bU8 buffer 0 ∧
        r2.pos = r1.pos + bU8 buffer 0 * (if bU8 buffer 1 = 0xFF then 6 else 3) ∧
        (bU8 buffer 1 = 0xFF → ∀ e ∈ es, ∃ m, e = .moveable m) ∧
        (bU8 buffer 1 ≠ 0xFF → ∀ e ∈ es, ∃ f, e = .fixed f ∧ f.segment = bU8 buffer 1) ∧
        readBundles (fuel + 1) remaining r =
          (readBundles fuel
              (remaining - 2 - bU8 buffer 0 * (if bU8 buffer 1 = 0xFF then 6 else 3)) r2).map
            (fun p => (es ++ p.1, p.2))) := by
  have h0 : ¬ remaining = 0 := by omega
  have h2 : ¬ remaining < 2 := by omega
  refine ⟨?_, ?_, ?_, ?_⟩
  · intro hc
    simp [readBundles, hread, h0, h2, hc]
  · intro hc hs
    cases hrec : readBundles fuel (remaining - 2) r1 with
    | error e => simp [readBundles, hread, h0, h2, hc, hs, hrec, Except.map]
    | ok p =>
      obtain ⟨es, r2⟩ := p
      simp [readBundles, hread, h0, h2, hc, hs, hrec, Except.map]
  · intro hc hs hgt
    by_cases hseg : bU8 buffer 1 = 0xFF
    · rw [if_pos hseg] at hgt
      simp [readBundles, hread, h0, h2, hc, hs, hseg, hgt]
    · rw [if_neg hseg] at hgt
      simp [readBundles, hread, h0, h2, hc, hs, hseg, hgt]
  · intro hc hs hle es r2 hne
    obtain ⟨hlen, hr2, hkinds⟩ := readNeEntries_spec _ _ _ _ _ hne
    refine ⟨hlen, by rw [hr2], fun hseg e he => ((hkinds e he).1 hseg),
      fun hseg e he => ((hkinds e he).2 hseg), ?_⟩
    by_cases hseg : bU8 buffer 1 = 0xFF
    · rw [if_pos hseg] at hle
      have hng : ¬ (remaining - 2 < bU8 buffer 0 * 6) := by omega
      have hne2 := hne
      rw [hseg] at hne2
      cases hrec : readBundles fuel (remaining - 2 - bU8 buffer 0 * 6) r2 with
      | error e => simp [readBundles, hread, h0, h2, hc, hs, hseg, hng, hne2, hrec, Except.map]
      | ok p =>
        obtain ⟨es2, r3⟩ := p
        simp [readBundles, hread, h0, h2, hc, hs, hseg, hng, hne2, hrec, Except.map]
    · rw [if_neg hseg] at hle
      have hng : ¬ (remaining - 2 < bU8 buffer 0 * 3) := by omega
      cases hrec : readBundles fuel (remaining - 2 - bU8 buffer 0 * 3) r2 with
      | error e => simp [readBundles, hread, h0, h2, hc, hs, hseg, hng, hne, hrec, Except.map]
      | ok p =>
        obtain ⟨es2, r3⟩ := p
        simp [readBundles, hread, h0, h2, hc, hs, hseg, hng, hne, hrec, Except.map]

/-- Witness for `c7_entry_bundle_decode` on the moveable bundle of
`c7Source`. -/
theorem c7_entry_bundle_decode_witness :
    ∃ es r2, readNeEntries (c7Source.seek 2) 0xFF 1 = .ok (es, r2) ∧
      es.length = 1 ∧ r2.pos = (c7Source.seek 2).pos + 1 * 6 := by
  have happ := (c7_entry_bundle_decode 3 8 c7Source [1, 0xFF] (c7Source.seek 2)
    (by decide) rfl).2.2.2 (by decide) (by decide) (by decide) _ _ rfl
  exact ⟨_, _, rfl, happ.1, happ.2.1⟩

/-! ## Error classification: the fuel marker never escapes the loops -/

/-- The only error a raw read produces is a short read. -/
theorem readExact_err (r : ByteReader) (n : Nat) (e : IoErr)
    (h : r.readExact n = .error e) : e = .truncated := by
  unfold ByteReader.readExact at h
  split at h
  · exact absurd h (by simp)
  · injection h with h1
    exact h1.symm

theorem readU8_err (r : ByteReader) (e : IoErr) (h : r.readU8 = .error e) :
    e = .truncated := by
  unfold ByteReader.readU8 at h
  split at h
  · exact absurd h (by simp)
  · rename_i e1 he
    injection h with h1
    exact h1 ▸ readExact_err _ _ _ he

theorem readU16_err (r : ByteReader) (e : IoErr) (h : r.readU16 = .error e) :
    e = .truncated := by
  unfold ByteReader.readU16 at h
  split at h
  · exact absurd h (by simp)
  · rename_i e1 he
    injection h with h1
    exact h1 ▸ readExact_err _ _ _ he

theorem readU32_err (r : ByteReader) (e : IoErr) (h : r.readU32 = .error e) :
    e = .truncated := by
  unfold ByteReader.readU32 at h
  split at h
  · exact absurd h (by simp)
  · rename_i e1 he
    injection h with h1
    exact h1 ▸ readExact_err _ _ _ he

theorem readSized2_err (b : Bool) (r : ByteReader) (e : IoErr)
    (h : (if b then r.readU16 else r.readU8) = .error e) : e = .truncated := by
  cases b
  · rw [if_neg (by decide)] at h
    exact readU8_err _ _ h
  · rw [if_pos rfl] at h
    exact readU16_err _ _ h

theorem readSized4_err (b : Bool) (r : ByteReader) (e : IoErr)
    (h : (if b then r.readU32 else r.readU16) = .error e) : e = .truncated := by
  cases b
  · rw [if_neg (by decide)] at h
    exact readU16_err _ _ h
  · rw [if_pos rfl] at h
    exact readU32_err _ _ h

/-- An `Except.map` error comes from the mapped computation. -/
theorem map_err {α β : Type} (f : α → β) (x : Except IoErr α) (e : IoErr)
    (h : Except.map f x = .error e) : x = .error e := by
  cases x with
  | error e1 =>
    injection h with h1
    rw [h1]
  | ok a => exact absurd h (by simp [Except.map])

/-- A failed fixup-target decode is a short read or the unknown-target-type
error. -/
theorem read_target_data_err (r : ByteReader) (flags : FixupFlags) (e : IoErr)
    (h : read_target_data r flags = .error e) :
    e = .truncated ∨ e = .unknownTargetType flags.target_type := by
  unfold read_target_data at h
  split at h
  · left
    unfold read_internal_target at h
    split at h
    · rename_i e1 he
      injection h with h1
      exact h1 ▸ readSized2_err _ _ _ he
    · split at h
      · split at h
        · rename_i e1 he
          injection h with h1
          exact h1 ▸ readSized4_err _ _ _ he
        · exact absurd h (by simp)
      · exact absurd h (by simp)
  · left
    unfold read_imported_ordinal_target at h
    split at h
    · rename_i e1 he
      injection h with h1
      exact h1 ▸ readSized2_err _ _ _ he
    · split at h
      · rename_i e1 he
        injection h with h1
        subst h1
        by_cases h8 : flags.is_8bit_ordinal = true
        · rw [if_pos h8] at he
          exact readU8_err _ _ he
        · rw [if_neg h8] at he
          exact readSized4_err _ _ _ he
      · exact absurd h (by simp)
  · left
    unfold read_imported_name_target at h
    split at h
    · rename_i e1 he
      injection h with h1
      exact h1 ▸ readSized2_err _ _ _ he
    · split at h
      · rename_i e1 he
        injection h with h1
        exact h1 ▸ readSized4_err _ _ _ he
      · exact absurd h (by simp)
  · left
    unfold read_entry_table_target at h
    split at h
    · rename_i e1 he
      injection h with h1
      exact h1 ▸ readSized2_err _ _ _ he
    · exact absurd h (by simp)
  · right
    rename_i t ht0 ht1 ht2 ht3
    injection h with h1
    rw [h1.symm]

theorem readU16List_err (n : Nat) (r : ByteReader) (e : IoErr)
    (h : readU16List r n = .error e) : e = .truncated := by
  induction n generalizing r with
  | zero => exact absurd h (by simp [readU16List])
  | succ n ih =>
    unfold readU16List at h
    split at h
    · rename_i e1 he
      injection h with h1
      exact h1 ▸ readU16_err _ _ he
    · split at h
      · rename_i e1 he
        injection h with h1
        subst h1
        exact ih _ he
      · exact absurd h (by simp)

/-- A failed fixup-record decode is a short read or an unknown target
type — never the fuel marker. -/
theorem read_single_fixup_record_err (r : ByteReader) (e : IoErr)
    (h : read_single_fixup_record r = .error e) :
    e = .truncated ∨ ∃ t, e = .unknownTargetType t := by
  unfold read_single_fixup_record at h
  split at h
  · rename_i e1 he
    injection h with h1
    exact .inl (h1 ▸ readU8_err _ _ he)
  rename_i source r1 h1
  split at h
  · rename_i e1 he
    injection h with hh
    exact .inl (hh ▸ readU8_err _ _ he)
  rename_i target_flags r2 h2
  dsimp only at h
  split at h
  · rename_i e1 he
    injection h with hh
    subst hh
    left
    by_cases hb : (FixupFlags.from_bytes source target_flags).has_source_list = true
    · rw [if_pos hb] at he
      exact readU8_err _ _ he
    · rw [if_neg hb] at he
      exact readU16_err _ _ he
  rename_i soc r3 h3
  split at h
  · rename_i e1 he
    injection h with hh
    subst hh
    rcases read_target_data_err _ _ _ he with ht | ht
    · exact .inl ht
    · exact .inr ⟨_, ht⟩
  rename_i tdata r4 h4
  split at h
  · rename_i e1 he
    injection h with hh
    subst hh
    left
    by_cases hb : (FixupFlags.from_bytes source target_flags).has_additive = true
    · rw [if_pos hb] at he
      exact readSized4_err _ _ _ (map_err _ _ _ he)
    · rw [if_neg hb] at he
      exact absurd he (by simp)
  rename_i adv r5 h5
  split at h
  · rename_i e1 he
    injection h with hh
    subst hh
    left
    by_cases hb : (FixupFlags.from_bytes source target_flags).has_source_list = true
    · rw [if_pos hb] at he
      exact readU16List_err _ _ _ (map_err _ _ _ he)
    · rw [if_neg hb] at he
      exact absurd he (by simp)
  rename_i soffl r6 h6
  exact absurd h (by simp)

/-- Every successfully decoded fixup record consumes at least its two flag
bytes, so the page loop strictly advances. -/
theorem read_single_fixup_record_advances (r : ByteReader) (rec : FixupRecord)
    (r' : ByteReader) (h : read_single_fixup_record r = .ok (rec, r')) :
    r.pos + 2 ≤ r'.pos := by
  unfold read_single_fixup_record at h
  split at h
  · exact absurd h (by simp)
  rename_i source r1 h1
  split at h
  · exact absurd h (by simp)
  rename_i target_flags r2 h2
  dsimp only at h
  split at h
  · exact absurd h (by simp)
  rename_i soc r3 h3
  split at h
  · exact absurd h (by simp)
  rename_i tdata r4 h4
  split at h
  · exact absurd h (by simp)
  rename_i adv r5 h5
  split at h
  · exact absurd h (by simp)
  rename_i soffl r6 h6
  injection h with hh
  injection hh with hh1 hh2
  subst hh2
  have p1 : r1.pos = r.pos + 1 := by rw [(readU8_ok _ _ _ h1).2.1]
  have p2 : r2.pos = r1.pos + 1 := by rw [(readU8_ok _ _ _ h2).2.1]
  have p3 : r2.pos ≤ r3.pos := by
    by_cases hb : (FixupFlags.from_bytes source target_flags).has_source_list = true
    · rw [if_pos hb] at h3
      rw [(readU8_ok _ _ _ h3).2.1]
      exact Nat.le_add_right _ 1
    · rw [if_neg hb] at h3
      rw [(readU16_ok _ _ _ h3).2.1]
      exact Nat.le_add_right _ 2
  have p4 : r3.pos ≤ r4.pos := by
    rw [read_target_data_ok _ _ _ _ h4]
    exact Nat.le_add_right _ _
  have p5 : r4.pos ≤ r5.pos := by
    by_cases hb : (FixupFlags.from_bytes source target_flags).has_additive = true
    · rw [if_pos hb] at h5
      cases hx : (if (FixupFlags.from_bytes source target_flags).is_32bit_additive = true
          then r4.readU32 else r4.readU16) with
      | error e =>
        rw [hx] at h5
        exact absurd h5 (by simp [Except.map])
      | ok p =>
        obtain ⟨pv, pr⟩ := p
        rw [hx] at h5
        simp only [Except.map] at h5
        injection h5 with h5a
        injection h5a with h5b h5c
        subst h5c
        rw [(readSized4_ok _ _ _ _ hx).2]
        exact Nat.le_add_right _ _
    · rw [if_neg hb] at h5
      injection h5 with h5a
      injection h5a with h5b h5c
      subst h5c
      exact Nat.le_refl _
  have p6 : r5.pos ≤ r6.pos := by
    by_cases hb : (FixupFlags.from_bytes source target_flags).has_source_list = true
    · rw [if_pos hb] at h6
      cases hy : readU16List r5 soc with
      | error e =>
        rw [hy] at h6
        exact absurd h6 (by simp [Except.map])
      | ok q =>
        obtain ⟨ql, qr⟩ := q
        rw [hy] at h6
        simp only [Except.map] at h6
        injection h6 with h6a
        injection h6a with h6b h6c
        subst h6c
        rw [(readU16List_ok _ _ _ _ hy).2]
        exact Nat.le_add_right _ _
    · rw [if_neg hb] at h6
      injection h6 with h6a
      injection h6a with h6b h6c
      subst h6c
      exact Nat.le_refl _
  omega

/-- The caller's fuel choice for the per-page fixup loop is sufficient:
whenever `fuel` covers the distance to the slice end, the loop never
reports fuel exhaustion. -/
theorem readPageRecords_fuel_adequate (fuel bound : Nat) (r : ByteReader)
    (hfuel : bound ≤ r.pos + fuel) :
    readPageRecords fuel bound r ≠ .error .outOfFuel := by
  induction fuel generalizing r with
  | zero =>
    unfold readPageRecords
    rw [if_neg (by omega)]
    simp
  | succ fuel ih =>
    unfold readPageRecords
    by_cases hlt : r.pos < bound
    · rw [if_pos hlt]
      dsimp only
      cases hs : read_single_fixup_record r with
      | error e =>
        rcases read_single_fixup_record_err _ _ hs with ht | ⟨t, ht⟩ <;>
          subst ht <;> simp
      | ok p =>
        obtain ⟨rec, r1⟩ := p
        have hadv := read_single_fixup_record_advances _ _ _ hs
        have hih := ih r1 (by omega)
        dsimp only
        cases hrec : readPageRecords fuel bound r1 with
        | error e2 =>
          rw [hrec] at hih
          simpa using hih
        | ok q =>
          obtain ⟨records, r2⟩ := q
          simp
    · rw [if_neg hlt]
      simp

/-- The outer per-page loop (and hence `FixupRecordsTable::read`) never
reports fuel exhaustion: the embedding's fuel is an artefact. -/
theorem readAllPages_ne_outOfFuel (offsets : List Nat) (fro eor : Nat)
    (r : ByteReader) : readAllPages fro eor r offsets ≠ .error .outOfFuel := by
  induction offsets generalizing r with
  | nil => simp [readAllPages]
  | cons off rest ih =>
    intro hcontra
    unfold readAllPages at hcontra
    dsimp only at hcontra
    split at hcontra
    · rename_i e heq
      injection hcontra with he
      subst he
      exact readPageRecords_fuel_adequate _ _ _ (by omega) heq
    · rename_i records r1 heq
      split at hcontra
      · rename_i e2 heq2
        injection hcontra with he
        subst he
        exact ih r1 heq2
      · exact absurd hcontra (by simp)

/-- `FixupRecordsTable::read` itself never reports fuel exhaustion. -/
theorem FixupRecordsTable_read_ne_outOfFuel (r : ByteReader)
    (t : FixupPageTable) (off : Nat) :
    FixupRecordsTable.read r t off ≠ .error .outOfFuel := by
  intro hcontra
  unfold FixupRecordsTable.read at hcontra
  split at hcontra
  · rename_i e heq
    injection hcontra with he
    subst he
    exact readAllPages_ne_outOfFuel _ _ _ _ heq
  · exact absurd hcontra (by simp)

theorem MoveableEntry_read_err (r : ByteReader) (e : IoErr)
    (h : MoveableEntry.read r = .error e) : e = .truncated := by
  unfold MoveableEntry.read at h
  split at h
  · rename_i e1 he
    injection h with h1
    exact h1 ▸ readExact_err _ _ _ he
  · exact absurd h (by simp)

theorem FixedEntry_read_err (r : ByteReader) (seg : Nat) (e : IoErr)
    (h : FixedEntry.read r seg = .error e) : e = .truncated := by
  unfold FixedEntry.read at h
  split at h
  · rename_i e1 he
    injection h with h1
    exact h1 ▸ readExact_err _ _ _ he
  · exact absurd h (by simp)

/-- A failed NE entry loop is a short read. -/
theorem readNeEntries_err (seg_id count : Nat) (r : ByteReader) (e : IoErr)
    (h : readNeEntries r seg_id count = .error e) : e = .truncated := by
  induction count generalizing r with
  | zero => exact absurd h (by simp [readNeEntries])
  | succ n ih =>
    unfold readNeEntries at h
    split at h
    · rename_i e1 he
      injection h with h1
      subst h1
      by_cases hseg : seg_id = 0xFF
      · rw [if_pos hseg] at he
        exact MoveableEntry_read_err _ _ (map_err _ _ _ he)
      · rw [if_neg hseg] at he
        exact FixedEntry_read_err _ _ _ (map_err _ _ _ he)
    · split at h
      · rename_i e1 he
        injection h with h1
        subst h1
        exact ih _ he
      · exact absurd h (by simp)

/-- The caller's fuel choice for the NE entry-bundle loop is sufficient:
the remaining-byte counter shrinks by at least 2 per iteration, so any
fuel at least the counter suffices. -/
theorem readBundles_fuel_adequate (fuel remaining : Nat) (r : ByteReader)
    (hfuel : remaining ≤ fuel) :
    readBundles fuel remaining r ≠ .error .outOfFuel := by
  induction fuel generalizing remaining r with
  | zero =>
    unfold readBundles
    rw [if_pos (by omega)]
    simp
  | succ fuel ih =>
    intro hcontra
    unfold readBundles at hcontra
    split at hcontra
    · exact absurd hcontra (by simp)
    · rename_i h0
      dsimp only at hcontra
      split at hcontra
      · rename_i e heq
        injection hcontra with he
        subst he
        exact absurd (readExact_err _ _ _ heq) (by simp)
      · rename_i buffer r1 heq
        split at hcontra
        · exact absurd hcontra (by simp)
        · rename_i h2
          split at hcontra
          · exact absurd hcontra (by simp)
          · split at hcontra
            · split at hcontra
              · rename_i e2 hrec
                injection hcontra with he
                subst he
                exact ih (remaining - 2) r1 (by omega) hrec
              · exact absurd hcontra (by simp)
            · split at hcontra <;> split at hcontra
              · exact absurd hcontra (by simp)
              · split at hcontra
                · rename_i e2 hne
                  injection hcontra with he
                  subst he
                  exact absurd (readNeEntries_err _ _ _ _ hne) (by simp)
                · rename_i es r2 hne
                  split at hcontra
                  · rename_i e2 hrec
                    injection hcontra with he
                    subst he
                    exact ih _ r2 (by omega) hrec
                  · exact absurd hcontra (by simp)
              · exact absurd hcontra (by simp)
              · split at hcontra
                · rename_i e2 hne
                  injection hcontra with he
                  subst he
                  exact absurd (readNeEntries_err _ _ _ _ hne) (by simp)
                · rename_i es r2 hne
                  split at hcontra
                  · rename_i e2 hrec
                    injection hcontra with he
                    subst he
                    exact ih _ r2 (by omega) hrec
                  · exact absurd hcontra (by simp)

/-- `EntryTable::read` never reports fuel exhaustion: the wrapper passes
`cb_ent_tab + 1` fuel, which covers the whole declared table. -/
theorem EntryTable_read_ne_outOfFuel (r : ByteReader) (e_enttab cb : Nat) :
    EntryTable.read r e_enttab cb ≠ .error .outOfFuel := by
  intro hcontra
  unfold EntryTable.read at hcontra
  split at hcontra
  · rename_i e heq
    injection hcontra with he
    subst he
    exact readBundles_fuel_adequate (cb + 1) cb _ (by omega) heq
  · exact absurd hcontra (by simp)

/-- The caller's fuel choice for the module-name-pool scan is sufficient:
each iteration consumes at least one byte of the bounded source. -/
theorem readModulesLoop_fuel_adequate (fuel : Nat) (r : ByteReader)
    (hfe : 1 ≤ fuel) (hfuel : r.size + 2 ≤ r.pos + fuel) :
    readModulesLoop fuel r ≠ .error .outOfFuel := by
  induction fuel generalizing r with
  | zero => omega
  | succ fuel ih =>
    intro hcontra
    unfold readModulesLoop at hcontra
    split at hcontra
    · rename_i e heq
      injection hcontra with he
      subst he
      exact absurd (readU8_err _ _ heq) (by simp)
    · rename_i len r1 heq
      obtain ⟨-, hr1, hb1⟩ := readU8_ok _ _ _ heq
      split at hcontra
      · exact absurd hcontra (by simp)
      · rename_i hlen
        split at hcontra
        · rename_i e hex
          injection hcontra with he
          subst he
          exact absurd (readExact_err _ _ _ hex) (by simp)
        · rename_i bytes r2 hex
          obtain ⟨-, hr2, hb2⟩ := readExact_ok _ _ _ _ hex
          split at hcontra
          · rename_i e2 hrec
            injection hcontra with he
            subst he
            subst hr1
            dsimp only at hb2 hr2
            subst hr2
            refine ih _ (by omega) (by dsimp only; omega) hrec
          · exact absurd hcontra (by simp)

/-- `read_modules` never reports fuel exhaustion, for any pool offset. -/
theorem read_modules_ne_outOfFuel (r : ByteReader) (off : Nat) :
    read_modules r off ≠ .error .outOfFuel := by
  intro hcontra
  unfold read_modules at hcontra
  split at hcontra
  · exact absurd hcontra (by simp)
  · rename_i h0
    dsimp only at hcontra
    split at hcontra
    · rename_i e heq
      injection hcontra with he
      subst he
      refine readModulesLoop_fuel_adequate _ _ (by omega) ?_ heq
      dsimp only [ByteReader.seek]
      omega
    · exact absurd hcontra (by simp)

end Os2omf
